import Mathlib

/-
Verification development for the i18n-json-translator translation
orchestration engine.

The embedding below translates the TypeScript source into Lean:

* `JVal` models the JSON-like values handled by the engine
  (`Record<string, unknown>` entries: strings, numbers, booleans,
  `null`/`undefined`, nested objects).  Numbers are modelled as integers;
  none of the verified properties depend on non-integral numerics.
* `isChineseText`, `SUPPORTED_LANGUAGES`, `validateLanguageCode` embed
  `src/utils/index.ts`.
* `LANGUAGE_CODE_ALIASES` / `normalizeLanguageCode` embed the alias table of
  `FileProcessor`.
* `translateWithRetry` embeds the text-level retry loop of
  `FileProcessor.translateWithRetry`.  The provider is modelled as a function
  from the attempt number to either a thrown error (`Except.error`) or a
  returned value (`Except.ok (v : JVal)`, not necessarily a string, matching
  the untyped `translator.translateText` result).
* `translateLanguageV2` embeds the sequential cached
  `FileProcessor.translateLanguage` of `src/utils/file-processor.ts`
  (the variant whose `null`/`undefined` branch yields an empty string), with
  shared mutable cache and the provider-call log made into explicit state.
* `translateLanguageP6` embeds the worker-pool
  `FileProcessor.translateLanguage` variant (the one that records
  `[TRANSLATION_FAILED]` markers), under deterministic sequential task
  semantics: tasks are dequeued and resolved in queue order.
* `translateObjectFields` embeds `Translator.translateObject`.
* `RunState`/`SchedStep` give a small-step interleaving semantics to the
  worker-pool loop so that the concurrency ceiling can be analysed: each
  active `translateLanguage` invocation holds a queue of pending values and
  a set of active tasks (in-flight provider calls, instantly-resolving
  scalar tasks, and recursive sub-runs), and may start a task only while
  its active set is smaller than `maxWorkers`.
-/

namespace I18nJson

/-- JSON-like runtime value: a string, an integer number, a boolean,
`null`, `undefined`, or a nested object given as an ordered field list. -/
inductive JVal where
  | str (s : String)
  | num (n : Int)
  | bool (b : Bool)
  | null
  | undef
  | obj (fields : List (String × JVal))
deriving Repr, Inhabited

/-- JavaScript `String(value)` for the non-object values the engine
stringifies (`String(42) = "42"`, `String(true) = "true"`,
`String(null) = "null"`, `String(undefined) = "undefined"`). -/
def jsString : JVal → String
  | .str s => s
  | .num n => toString n
  | .bool true => "true"
  | .bool false => "false"
  | .null => "null"
  | .undef => "undefined"
  | .obj _ => "[object Object]"

/-- A value that is neither a string leaf nor a nested object
(the scalars the spec says must be reproduced unchanged). -/
def JVal.isNonStringScalar : JVal → Bool
  | .str _ => false
  | .obj _ => false
  | _ => true

/-- Embeds `isChineseText` of `src/utils/index.ts`: the regular expression
test for at least one character in the range U+4E00 to U+9FA5. -/
def isChineseText (text : String) : Bool :=
  text.data.any (fun c => decide (0x4e00 ≤ c.toNat) && decide (c.toNat ≤ 0x9fa5))

/-- Embeds the key set of `SUPPORTED_LANGUAGES` in `src/utils/index.ts`. -/
def supportedLanguageCodes : List String :=
  ["en", "es", "fr", "de", "it", "pt", "ru", "ja", "ko", "vi"]

/-- Embeds `validateLanguageCode` of `src/utils/index.ts`: throws
`Unsupported language code: <code>` when the code is not supported. -/
def validateLanguageCode (code : String) : Except String Unit :=
  if supportedLanguageCodes.contains code then .ok ()
  else .error ("Unsupported language code: " ++ code)

/-- Embeds `FileProcessor.LANGUAGE_CODE_ALIASES`. -/
def LANGUAGE_CODE_ALIASES : List (String × String) :=
  [("kr", "ko"), ("cn", "zh-CN"), ("tw", "zh-TW"), ("jp", "ja")]

/-- ASCII lower-casing of one character, as `String.prototype.toLowerCase`
acts on the ASCII range (the alias keys are ASCII). -/
def charToLower (c : Char) : Char :=
  if 65 ≤ c.toNat ∧ c.toNat ≤ 90 then Char.ofNat (c.toNat + 32) else c

/-- ASCII lower-casing of a string (`code.toLowerCase()` on ASCII codes). -/
def strToLower (s : String) : String :=
  ⟨s.data.map charToLower⟩

/-- Embeds `FileProcessor.normalizeLanguageCode`:
`LANGUAGE_CODE_ALIASES[code.toLowerCase()] || code`. -/
def normalizeLanguageCode (code : String) : String :=
  match LANGUAGE_CODE_ALIASES.find? (fun kv => kv.1 == strToLower code) with
  | some kv => kv.2
  | none => code

/-- The translation options of `FileProcessor` (`Required<TranslationOptions>`
after merging `DEFAULT_OPTIONS`).  Delays are rational milliseconds so that
the multiplicative backoff (`retryMultiplier: 1.5`) is exact. -/
structure TOptions where
  maxWorkers : Nat
  maxRetries : Nat
  retryDelay : ℚ
  retryMultiplier : ℚ
  batchDelay : ℚ
deriving Repr

/-- Embeds `DEFAULT_OPTIONS` of `FileProcessor`. -/
def DEFAULT_OPTIONS : TOptions :=
  { maxWorkers := 3, maxRetries := 3, retryDelay := 2000,
    retryMultiplier := 3 / 2, batchDelay := 2000 }

/-- Observable outcome of one `translateWithRetry` invocation: the sleeps
performed between attempts (in order, in milliseconds), the number of
provider invocations, and the returned translation or thrown error. -/
structure RetryOutcome where
  sleeps : List ℚ
  calls : Nat
  result : Except String String
deriving Repr

/-- The body of one retry attempt, as seen by the `catch` clause of
`FileProcessor.translateWithRetry`: a thrown provider error stays an error,
and a returned result that is falsy or not a string becomes the thrown
error `翻译结果无效` (invalid translation result). -/
def attemptOutcome : Except String JVal → Except String String
  | .error msg => .error msg
  | .ok (.str s) => if s = "" then .error "翻译结果无效" else .ok s
  | .ok _ => .error "翻译结果无效"

/-- The retry loop of `FileProcessor.translateWithRetry`, with the attempt
counter and the remaining number of attempts made explicit
(`remaining = maxRetries - attempt + 1`).  On a failed attempt with attempts
remaining it sleeps for `currentDelay` and multiplies the delay by
`mult`; on the final failed attempt it throws `翻译失败 (<last error>)`. -/
def retryLoop (provider : Nat → Except String JVal) (attempt remaining : Nat)
    (currentDelay mult : ℚ) : RetryOutcome :=
  match remaining with
  | 0 => ⟨[], 0, .error "翻译失败"⟩
  | r + 1 =>
    match attemptOutcome (provider attempt) with
    | .ok s => ⟨[], 1, .ok s⟩
    | .error msg =>
      if r = 0 then
        ⟨[], 1, .error ("翻译失败 (" ++ msg ++ ")")⟩
      else
        let rest := retryLoop provider (attempt + 1) r (currentDelay * mult) mult
        ⟨currentDelay :: rest.sleeps, rest.calls + 1, rest.result⟩

/-- Embeds `FileProcessor.translateWithRetry` (the text-level retry
controller): attempts run from 1 to `maxRetries`, starting with delay
`retryDelay`. -/
def translateWithRetry (provider : Nat → Except String JVal)
    (maxRetries : Nat) (retryDelay retryMultiplier : ℚ) : RetryOutcome :=
  retryLoop provider 1 maxRetries retryDelay retryMultiplier

/-- Attempt `i` of `provider` fails: either the call throws, or it returns
an empty or non-string result (which the retry loop turns into the thrown
error `翻译结果无效`). -/
def attemptFails (provider : Nat → Except String JVal) (i : Nat) : Prop :=
  ∃ msg, attemptOutcome (provider i) = .error msg

/-- The per-run translation cache `FileProcessor.translationCache`, made
explicit: a list of (language, source text, translation) entries, newest
first (`cacheTranslation` overwrites by shadowing). -/
abbrev Cache := List (String × String × String)

/-- Embeds `FileProcessor.getCachedTranslation`:
`this.translationCache[lang]?.[text] || null` — note that an empty cached
string is falsy and therefore reported as a miss. -/
def getCachedTranslation (cache : Cache) (text lang : String) : Option String :=
  match cache.find? (fun e => e.1 == lang && e.2.1 == text) with
  | some e => if e.2.2 = "" then none else some e.2.2
  | none => none

/-- Embeds `FileProcessor.cacheTranslation`. -/
def cacheTranslation (cache : Cache) (text lang translation : String) : Cache :=
  (lang, text, translation) :: cache

/-- Explicit state for the cached sequential pipeline: the shared cache and
the log of provider invocations, each recorded as (text, language). -/
structure PState where
  cache : Cache
  callLog : List (String × String)
deriving Repr

/-- The state at the start of `processTranslationsParallel`
(`initializeProgress` resets the cache). -/
def emptyPState : PState := ⟨[], []⟩

/-- Embeds `FileProcessor.translateText` of the cached sequential variant:
cache lookup, then `translateWithRetry` and `cacheTranslation` on a miss.
The provider takes the source text, the language, and the attempt number. -/
def translateTextV2 (provider : String → String → Nat → Except String JVal)
    (text lang : String) (opts : TOptions) (st : PState) :
    Except String String × PState :=
  match getCachedTranslation st.cache text lang with
  | some cached => (.ok cached, st)
  | none =>
    let out := translateWithRetry (fun attempt => provider text lang attempt)
        opts.maxRetries opts.retryDelay opts.retryMultiplier
    let st1 : PState := ⟨st.cache, st.callLog ++ List.replicate out.calls (text, lang)⟩
    match out.result with
    | .ok translation =>
      (.ok translation, ⟨cacheTranslation st1.cache text lang translation, st1.callLog⟩)
    | .error e => (.error e, st1)

/-- Embeds the sequential cached `FileProcessor.translateLanguage` of
`src/utils/file-processor.ts`: entries are processed in order; string
values go through `translateText` (a thrown error aborts the run and
propagates), nested objects recurse, `null`/`undefined` become empty strings,
and any other value becomes `String(value)`. -/
def translateLanguageV2 (provider : String → String → Nat → Except String JVal)
    (lang : String) (opts : TOptions) :
    List (String × JVal) → PState → Except String (List (String × JVal)) × PState
  | [], st => (.ok [], st)
  | (k, .str s) :: rest, st =>
    match translateTextV2 provider s lang opts st with
    | (.ok t, st1) =>
      match translateLanguageV2 provider lang opts rest st1 with
      | (.ok out, st2) => (.ok ((k, .str t) :: out), st2)
      | (.error e, st2) => (.error e, st2)
    | (.error e, st1) => (.error e, st1)
  | (k, .obj fs) :: rest, st =>
    match translateLanguageV2 provider lang opts fs st with
    | (.ok inner, st1) =>
      match translateLanguageV2 provider lang opts rest st1 with
      | (.ok out, st2) => (.ok ((k, .obj inner) :: out), st2)
      | (.error e, st2) => (.error e, st2)
    | (.error e, st1) => (.error e, st1)
  | (k, .null) :: rest, st =>
    match translateLanguageV2 provider lang opts rest st with
    | (.ok out, st1) => (.ok ((k, .str "") :: out), st1)
    | (.error e, st1) => (.error e, st1)
  | (k, .undef) :: rest, st =>
    match translateLanguageV2 provider lang opts rest st with
    | (.ok out, st1) => (.ok ((k, .str "") :: out), st1)
    | (.error e, st1) => (.error e, st1)
  | (k, v) :: rest, st =>
    match translateLanguageV2 provider lang opts rest st with
    | (.ok out, st1) => (.ok ((k, .str (jsString v)) :: out), st1)
    | (.error e, st1) => (.error e, st1)

/-- Embeds the worker-pool `FileProcessor.translateLanguage` of
`src/unnamed/part_006` sequentialized in queue order.  Each string task
checks the cache, performs a single provider attempt on a miss
(`translateText` there performs no retries), caches a success, and on any
failure the catch branch stores the marker `[TRANSLATION_FAILED]
<original text>`; nested objects recurse into a fresh inner pool; all
other values become `String(value)`.  No error escapes.
CAVEAT: the real pool assigns `result[key]` at task COMPLETION, not in
queue order, so only order-insensitive consequences of this model (which
keys exist, which value each key carries) transfer to the program; the
result-key insertion order itself is modelled separately by
`FlatPool`/`FlatStep` below, and is NOT preserved in general. -/
def translateLanguageP6 (provider : String → String → Except String JVal)
    (lang : String) :
    List (String × JVal) → Cache → List (String × JVal) × Cache
  | [], cache => ([], cache)
  | (k, .str s) :: rest, cache =>
    let task : JVal × Cache :=
      match getCachedTranslation cache s lang with
      | some cached => (.str cached, cache)
      | none =>
        match attemptOutcome (provider s lang) with
        | .ok t => (.str t, cacheTranslation cache s lang t)
        | .error _ => (.str ("[TRANSLATION_FAILED] " ++ s), cache)
    let r := translateLanguageP6 provider lang rest task.2
    ((k, task.1) :: r.1, r.2)
  | (k, .obj fs) :: rest, cache =>
    let inner := translateLanguageP6 provider lang fs cache
    let r := translateLanguageP6 provider lang rest inner.2
    ((k, .obj inner.1) :: r.1, r.2)
  | (k, v) :: rest, cache =>
    let r := translateLanguageP6 provider lang rest cache
    ((k, .str (jsString v)) :: r.1, r.2)

/-- Embeds the output location of `FileProcessor.saveTranslation`:
`path.join(outputDir, languageCode + ".json")`. -/
def saveTranslationPath (outputDir languageCode : String) : String :=
  outputDir ++ "/" ++ languageCode ++ ".json"

/-- The per-language loop of `processTranslationsParallel`
(`src/unnamed/part_006`): one language at a time, threading the shared
cache; each language entry records the results-map key, the output path
and the translated document. -/
def processLangsP6 (provider : String → String → Except String JVal)
    (doc : List (String × JVal)) (outputDir : String) :
    List String → Cache → List (String × String × List (String × JVal))
  | [], _ => []
  | lang :: rest, cache =>
    let r := translateLanguageP6 provider lang doc cache
    (lang, saveTranslationPath outputDir lang, r.1)
      :: processLangsP6 provider doc outputDir rest r.2

/-- Embeds `FileProcessor.processTranslationsParallel` of
`src/unnamed/part_006`: the requested languages are alias-normalized up
front, the cache starts empty, and each (normalized) language is processed
in turn. -/
def processTranslationsParallelP6 (provider : String → String → Except String JVal)
    (doc : List (String × JVal)) (outputDir : String)
    (targetLanguages : List String) : List (String × String × List (String × JVal)) :=
  processLangsP6 provider doc outputDir (targetLanguages.map normalizeLanguageCode) []

/-- Embeds the field loop of `Translator.translateObject` (`src/unnamed/part_009`):
nested objects recurse, string values containing Chinese characters are sent
to the provider (a thrown error propagates), every other value — including
non-Chinese strings and non-string scalars — is copied unchanged.  The
second component logs the texts sent to the provider. -/
def translateObjectFields (provider : String → String → Except String String)
    (lang : String) :
    List (String × JVal) → List String → Except String (List (String × JVal)) × List String
  | [], log => (.ok [], log)
  | (k, .obj fs) :: rest, log =>
    match translateObjectFields provider lang fs log with
    | (.ok inner, log1) =>
      match translateObjectFields provider lang rest log1 with
      | (.ok out, log2) => (.ok ((k, .obj inner) :: out), log2)
      | (.error e, log2) => (.error e, log2)
    | (.error e, log1) => (.error e, log1)
  | (k, .str s) :: rest, log =>
    if isChineseText s then
      match provider s lang with
      | .ok t =>
        match translateObjectFields provider lang rest (log ++ [s]) with
        | (.ok out, log1) => (.ok ((k, .str t) :: out), log1)
        | (.error e, log1) => (.error e, log1)
      | .error e => (.error e, log ++ [s])
    else
      match translateObjectFields provider lang rest log with
      | (.ok out, log1) => (.ok ((k, .str s) :: out), log1)
      | (.error e, log1) => (.error e, log1)
  | (k, v) :: rest, log =>
    match translateObjectFields provider lang rest log with
    | (.ok out, log1) => (.ok ((k, v) :: out), log1)
    | (.error e, log1) => (.error e, log1)

/-- Embeds `Translator.translateObject`: `validateLanguageCode` runs first,
before any field is examined and before any provider call. -/
def translateObject (provider : String → String → Except String String)
    (fields : List (String × JVal)) (targetLang : String) :
    Except String (List (String × JVal)) × List String :=
  match validateLanguageCode targetLang with
  | .error e => (.error e, [])
  | .ok _ => translateObjectFields provider targetLang fields []

/-- Embeds the per-language loop of the CLI (`src/unnamed/part_010`): each
requested language is translated inside its own try/catch, so one
failure of one language leaves the others untouched. -/
def cliTranslateAll (provider : String → String → Except String String)
    (doc : List (String × JVal)) :
    List String → List (String × Except String (List (String × JVal)))
  | [] => []
  | lang :: rest =>
    (lang, (translateObject provider doc lang).1) :: cliTranslateAll provider doc rest

/-- The value stored at key `k` (first occurrence, as JavaScript object
semantics guarantee unique keys). -/
def findValue (k : String) (fields : List (String × JVal)) : Option JVal :=
  match fields.find? (fun kv => kv.1 == k) with
  | some kv => some kv.2
  | none => none

/-- The value at a (non-empty) key path into a nested document. -/
def lookupPath : List String → List (String × JVal) → Option JVal
  | [], _ => none
  | [k], fields => findValue k fields
  | k :: rest, fields =>
    match findValue k fields with
    | some (.obj fs) => lookupPath rest fs
    | _ => none

/-- Whether `v` is a nested object. -/
def JVal.isObj : JVal → Bool
  | .obj _ => true
  | _ => false

/-- Structural agreement of two documents: the same keys in the same order
at every nesting level, object values aligned with object values and
non-object values with non-object values. -/
def sameStructure : List (String × JVal) → List (String × JVal) → Bool
  | [], [] => true
  | (k, .obj fs) :: rest, (k2, v2) :: rest2 =>
    match v2 with
    | .obj gs => k == k2 && sameStructure fs gs && sameStructure rest rest2
    | _ => false
  | (k, _) :: rest, (k2, v2) :: rest2 =>
    k == k2 && !v2.isObj && sameStructure rest rest2
  | _, _ => false

/-- Whether `s` occurs as a string leaf somewhere in the document. -/
def occursText (s : String) : List (String × JVal) → Bool
  | [] => false
  | (_, .str t) :: rest => s == t || occursText s rest
  | (_, .obj fs) :: rest => occursText s fs || occursText s rest
  | _ :: rest => occursText s rest

/-- Derived description of what one `part_006` language run produces from a
document when every string task resolves deterministically to `g`:
string leaves become `g`, nested objects recurse, and every other value
becomes `String(value)`. -/
def mapDocP6 (g : String → String) : List (String × JVal) → List (String × JVal)
  | [] => []
  | (k, .str s) :: rest => (k, .str (g s)) :: mapDocP6 g rest
  | (k, .obj fs) :: rest => (k, .obj (mapDocP6 g fs)) :: mapDocP6 g rest
  | (k, v) :: rest => (k, .str (jsString v)) :: mapDocP6 g rest

/-- State of one active `translateLanguage` worker pool
(`src/unnamed/part_006`, lines 299-353): the queue of values still to be
dequeued (`queue.shift()` takes the head), the number of in-flight provider
calls (`calls`, string tasks inside `translator.translateText`), the number
of active tasks holding a pool slot without a provider call in flight
(`locals`, tasks for non-string non-object values), and the active
recursive sub-runs spawned for nested objects. -/
inductive RunState where
  | mk (queue : List JVal) (calls : Nat) (locals : Nat) (subs : List RunState)

/-- The pending queue of a run. -/
def RunState.queue : RunState → List JVal
  | mk q _ _ _ => q

/-- The in-flight provider calls started directly by a run. -/
def RunState.calls : RunState → Nat
  | mk _ c _ _ => c

/-- The slot-holding scalar tasks of a run. -/
def RunState.locals : RunState → Nat
  | mk _ _ l _ => l

/-- The active recursive sub-runs of a run. -/
def RunState.subs : RunState → List RunState
  | mk _ _ _ s => s

/-- The size of the `inProgress` set of a run: every started-but-unfinished
task holds one slot, whether it is a provider call, a scalar task, or a
recursive sub-run. -/
def RunState.activeCount (r : RunState) : Nat :=
  r.calls + r.locals + r.subs.length

/-- The initial pool state for translating the values `vs`. -/
def initRun (vs : List JVal) : RunState :=
  .mk vs 0 0 []

/-- The initial pool state for a language run over document `doc`. -/
def initRunDoc (doc : List (String × JVal)) : RunState :=
  initRun (doc.map Prod.snd)

/-- A run has completed: nothing queued and nothing active. -/
def RunState.finished : RunState → Bool
  | .mk q c l subs => q.isEmpty && decide (c = 0) && decide (l = 0) && subs.isEmpty

mutual

/-- Total number of provider calls in flight anywhere inside a run,
including its recursive sub-runs. -/
def inFlight : RunState → Nat
  | .mk _ c _ subs => c + inFlightList subs

/-- Total number of provider calls in flight in a list of runs. -/
def inFlightList : List RunState → Nat
  | [] => 0
  | r :: rs => inFlight r + inFlightList rs

end

mutual

/-- Every pool in the run tree respects the `maxWorkers` ceiling `W` on its
own `inProgress` set. -/
def RunState.bounded (W : Nat) : RunState → Bool
  | .mk _ c l subs =>
    decide (c + l + subs.length ≤ W) && boundedList W subs

/-- Every pool in a list of run trees respects the ceiling `W`. -/
def boundedList (W : Nat) : List RunState → Bool
  | [] => true
  | r :: rs => r.bounded W && boundedList W rs

end

/-- One scheduling step of the worker-pool loop with ceiling `W`.  A task is
started from the head of the queue only while the `inProgress` set is
smaller than `W` (`inProgress.size < options.maxWorkers`); any in-flight
provider call may return (successfully or not — either way the task ends);
a scalar task resolves releasing its slot; a finished sub-run releases its
slot; and a step may happen inside any active sub-run. -/
inductive SchedStep (W : Nat) : RunState → RunState → Prop where
  | startStr (s : String) (q : List JVal) (c l : Nat) (subs : List RunState) :
      c + l + subs.length < W →
      SchedStep W (.mk (JVal.str s :: q) c l subs) (.mk q (c + 1) l subs)
  | startObj (fs : List (String × JVal)) (q : List JVal) (c l : Nat)
      (subs : List RunState) :
      c + l + subs.length < W →
      SchedStep W (.mk (JVal.obj fs :: q) c l subs)
        (.mk q c l (initRun (fs.map Prod.snd) :: subs))
  | startScalar (v : JVal) (q : List JVal) (c l : Nat) (subs : List RunState) :
      v.isNonStringScalar = true →
      c + l + subs.length < W →
      SchedStep W (.mk (v :: q) c l subs) (.mk q c (l + 1) subs)
  | finishCall (q : List JVal) (c l : Nat) (subs : List RunState) :
      SchedStep W (.mk q (c + 1) l subs) (.mk q c l subs)
  | finishScalar (q : List JVal) (c l : Nat) (subs : List RunState) :
      SchedStep W (.mk q c (l + 1) subs) (.mk q c l subs)
  | finishSub (q : List JVal) (c l : Nat) (s1 s2 : List RunState) (r : RunState) :
      r.finished = true →
      SchedStep W (.mk q c l (s1 ++ r :: s2)) (.mk q c l (s1 ++ s2))
  | stepSub (q : List JVal) (c l : Nat) (s1 s2 : List RunState) (r r2 : RunState) :
      SchedStep W r r2 →
      SchedStep W (.mk q c l (s1 ++ r :: s2)) (.mk q c l (s1 ++ r2 :: s2))

/-- Reachability under the scheduling steps. -/
def SchedReach (W : Nat) : RunState → RunState → Prop :=
  Relation.ReflTransGen (SchedStep W)

/-- The backoff sleeps performed before reaching attempt `k + 1` when the
first delay is `d` and the multiplier is `m`. -/
def backoffSleeps (k : Nat) (d m : ℚ) : List ℚ :=
  (List.range k).map (fun i => d * m ^ i)

theorem backoffSleeps_zero (d m : ℚ) : backoffSleeps 0 d m = [] := rfl

theorem backoffSleeps_succ (k : Nat) (d m : ℚ) :
    backoffSleeps (k + 1) d m = d :: backoffSleeps k (d * m) m := by
  unfold backoffSleeps
  rw [List.range_succ_eq_map, List.map_cons, List.map_map]
  refine congrArg₂ _ (by ring) (List.map_congr_left ?_)
  intro i _
  simp only [Function.comp_apply, Nat.succ_eq_add_one]
  ring

theorem retryLoop_eq_ok (provider : Nat → Except String JVal) (a r0 : Nat)
    (d m : ℚ) (s : String) (h : attemptOutcome (provider a) = .ok s) :
    retryLoop provider a (r0 + 1) d m = ⟨[], 1, .ok s⟩ := by
  simp [retryLoop, h]

theorem retryLoop_eq_err_last (provider : Nat → Except String JVal) (a : Nat)
    (d m : ℚ) (msg : String) (h : attemptOutcome (provider a) = .error msg) :
    retryLoop provider a 1 d m = ⟨[], 1, .error ("翻译失败 (" ++ msg ++ ")")⟩ := by
  simp [retryLoop, h]

theorem retryLoop_eq_err_cons (provider : Nat → Except String JVal) (a r0 : Nat)
    (d m : ℚ) (msg : String) (h : attemptOutcome (provider a) = .error msg)
    (h0 : r0 ≠ 0) :
    retryLoop provider a (r0 + 1) d m =
      ⟨d :: (retryLoop provider (a + 1) r0 (d * m) m).sleeps,
        (retryLoop provider (a + 1) r0 (d * m) m).calls + 1,
        (retryLoop provider (a + 1) r0 (d * m) m).result⟩ := by
  simp [retryLoop, h, h0]

/-- If attempts `a, a+1, ..., a+k-1` fail and attempt `a+k` returns a valid
translation `s`, and at least `k + 1` attempts remain, the loop performs
exactly `k + 1` provider calls, sleeps the backoff sequence between them,
and returns `s`. -/
theorem retryLoop_eq_of_succeeds (provider : Nat → Except String JVal) (s : String) :
    ∀ (k r a : Nat) (d m : ℚ),
      k + 1 ≤ r →
      (∀ j, a ≤ j → j < a + k → attemptFails provider j) →
      attemptOutcome (provider (a + k)) = .ok s →
      retryLoop provider a r d m = ⟨backoffSleeps k d m, k + 1, .ok s⟩ := by
  intro k
  induction k with
  | zero =>
    intro r a d m hr _ hok
    match r, hr with
    | r0 + 1, _ =>
      rw [show a + 0 = a from rfl] at hok
      rw [retryLoop_eq_ok provider a r0 d m s hok]
      rfl
  | succ k ih =>
    intro r a d m hr hfail hok
    match r, hr with
    | r0 + 1, hr =>
      have hfa : attemptFails provider a :=
        hfail a le_rfl (by omega)
      obtain ⟨msg, hmsg⟩ := hfa
      have hr0 : r0 ≠ 0 := by omega
      rw [retryLoop_eq_err_cons provider a r0 d m msg hmsg hr0]
      have hrest : retryLoop provider (a + 1) r0 (d * m) m =
          ⟨backoffSleeps k (d * m) m, k + 1, .ok s⟩ := by
        refine ih r0 (a + 1) (d * m) m (by omega) ?_ ?_
        · intro j hj1 hj2
          exact hfail j (by omega) (by omega)
        · rw [show a + 1 + k = a + (k + 1) by omega]
          exact hok
      rw [hrest, backoffSleeps_succ]

/-- If all of the `r ≥ 1` remaining attempts `a, ..., a+r-1` fail, the last
of them with error `msg`, the loop performs exactly `r` provider calls,
sleeps the backoff sequence between them, and throws the terminal error
`翻译失败 (msg)` wrapping the last failure. -/
theorem retryLoop_eq_of_allFail (provider : Nat → Except String JVal) (msg : String) :
    ∀ (r a : Nat) (d m : ℚ),
      1 ≤ r →
      (∀ j, a ≤ j → j < a + r → attemptFails provider j) →
      attemptOutcome (provider (a + r - 1)) = .error msg →
      retryLoop provider a r d m =
        ⟨backoffSleeps (r - 1) d m, r, .error ("翻译失败 (" ++ msg ++ ")")⟩ := by
  intro r
  induction r with
  | zero => intro a d m hr; omega
  | succ r0 ih =>
    intro a d m _ hfail hlast
    by_cases h0 : r0 = 0
    · subst h0
      have : a + 1 - 1 = a := by omega
      rw [this] at hlast
      rw [retryLoop_eq_err_last provider a d m msg hlast]
      rfl
    · have hfa : attemptFails provider a := hfail a le_rfl (by omega)
      obtain ⟨msg0, hmsg0⟩ := hfa
      rw [retryLoop_eq_err_cons provider a r0 d m msg0 hmsg0 h0]
      have hrest : retryLoop provider (a + 1) r0 (d * m) m =
          ⟨backoffSleeps (r0 - 1) (d * m) m, r0, .error ("翻译失败 (" ++ msg ++ ")")⟩ := by
        refine ih (a + 1) (d * m) m (by omega) ?_ ?_
        · intro j hj1 hj2
          exact hfail j (by omega) (by omega)
        · rw [show a + 1 + r0 - 1 = a + (r0 + 1) - 1 by omega]
          exact hlast
      rw [hrest]
      have hsl : backoffSleeps (r0 + 1 - 1) d m = d :: backoffSleeps (r0 - 1) (d * m) m := by
        rw [show r0 + 1 - 1 = (r0 - 1) + 1 by omega, backoffSleeps_succ]
      rw [hsl]

/-- The retry loop observes the provider only through `attemptOutcome`. -/
theorem retryLoop_congr (p q : Nat → Except String JVal)
    (h : ∀ j, attemptOutcome (p j) = attemptOutcome (q j)) :
    ∀ (r a : Nat) (d m : ℚ), retryLoop p a r d m = retryLoop q a r d m := by
  intro r
  induction r with
  | zero => intro a d m; rfl
  | succ r0 ih =>
    intro a d m
    cases hq : attemptOutcome (q a) with
    | ok s =>
      rw [retryLoop_eq_ok p a r0 d m s ((h a).trans hq),
        retryLoop_eq_ok q a r0 d m s hq]
    | error msg =>
      by_cases h0 : r0 = 0
      · subst h0
        rw [retryLoop_eq_err_last p a d m msg ((h a).trans hq),
          retryLoop_eq_err_last q a d m msg hq]
      · rw [retryLoop_eq_err_cons p a r0 d m msg ((h a).trans hq) h0,
          retryLoop_eq_err_cons q a r0 d m msg hq h0, ih]

/-- A successful retry result is never the empty string. -/
theorem retryLoop_ok_ne_empty (provider : Nat → Except String JVal) :
    ∀ (r a : Nat) (d m : ℚ) (s : String),
      (retryLoop provider a r d m).result = .ok s → s ≠ "" := by
  intro r
  induction r with
  | zero => intro a d m s h; exact absurd h (by simp [retryLoop])
  | succ r0 ih =>
    intro a d m s h
    cases hA : attemptOutcome (provider a) with
    | ok t =>
      rw [retryLoop_eq_ok provider a r0 d m t hA] at h
      cases h
      cases hP : provider a with
      | error msg => rw [hP] at hA; exact absurd hA (by simp [attemptOutcome])
      | ok v =>
        rw [hP] at hA
        cases v with
        | str u =>
          simp only [attemptOutcome] at hA
          by_cases hu : u = ""
          · rw [if_pos hu] at hA; exact absurd hA (by simp)
          · rw [if_neg hu] at hA
            cases hA
            exact hu
        | num n => exact absurd hA (by simp [attemptOutcome])
        | bool b => exact absurd hA (by simp [attemptOutcome])
        | null => exact absurd hA (by simp [attemptOutcome])
        | undef => exact absurd hA (by simp [attemptOutcome])
        | obj fs => exact absurd hA (by simp [attemptOutcome])
    | error msg =>
      by_cases h0 : r0 = 0
      · subst h0
        rw [retryLoop_eq_err_last provider a d m msg hA] at h
        exact absurd h (by simp)
      · rw [retryLoop_eq_err_cons provider a r0 d m msg hA h0] at h
        exact ih (a + 1) (d * m) m s h

/-- A value cached by `cacheTranslation` is reported by
`getCachedTranslation` only when it is non-empty. -/
theorem getCachedTranslation_ne_empty (cache : Cache) (text lang v : String) :
    getCachedTranslation cache text lang = some v → v ≠ "" := by
  unfold getCachedTranslation
  cases h : cache.find? (fun e => e.1 == lang && e.2.1 == text) with
  | none => intro h2; exact absurd h2 (by simp)
  | some e =>
    show (if e.2.2 = "" then none else some e.2.2) = some v → v ≠ ""
    by_cases he : e.2.2 = ""
    · rw [if_pos he]
      intro h2; exact absurd h2 (by simp)
    · rw [if_neg he]
      intro h2
      cases h2
      exact he

/-- Exactly the provider mock of C2: fails on attempts 1 and 2, succeeds
on attempt 3. -/
def retryMockProvider : Nat → Except String JVal :=
  fun i => if i < 3 then .error "boom" else .ok (.str "hello")

/-- C2: with `maxRetries = N ≥ 1`, `retryDelay ≥ 0` and
`retryMultiplier ≥ 1`, if the provider fails on attempts `1 .. N-1`, then:
if attempt `N` succeeds, `translateWithRetry` performs exactly `N` provider
calls, sleeps `retryDelay * retryMultiplier ^ (i - 1)` between attempts `i`
and `i + 1`, and returns the attempt-`N` result; if attempt `N` also fails,
it performs exactly `N` calls (none further) and throws the terminal error
`翻译失败 (...)` wrapping the last failure. -/
theorem translateWithRetry_backoff_law (provider : Nat → Except String JVal)
    (N : Nat) (d m : ℚ) (hN : 1 ≤ N) (_hd : 0 ≤ d) (_hm : 1 ≤ m)
    (hfail : ∀ i, 1 ≤ i → i < N → attemptFails provider i) :
    (∀ s, attemptOutcome (provider N) = .ok s →
      translateWithRetry provider N d m = ⟨backoffSleeps (N - 1) d m, N, .ok s⟩) ∧
    (∀ msg, attemptOutcome (provider N) = .error msg →
      translateWithRetry provider N d m =
        ⟨backoffSleeps (N - 1) d m, N, .error ("翻译失败 (" ++ msg ++ ")")⟩) := by
  constructor
  · intro s hok
    unfold translateWithRetry
    have h := retryLoop_eq_of_succeeds provider s (N - 1) N 1 d m (by omega)
      (fun j hj1 hj2 => hfail j hj1 (by omega)) ?_
    · rw [h]
      congr 1
      omega
    · rw [show 1 + (N - 1) = N by omega]
      exact hok
  · intro msg herr
    unfold translateWithRetry
    have h := retryLoop_eq_of_allFail provider msg N 1 d m hN ?_ ?_
    · rw [h]
    · intro j hj1 hj2
      by_cases hj : j < N
      · exact hfail j hj1 hj
      · have hjN : j = N := by omega
        subst hjN
        exact ⟨msg, herr⟩
    · rw [show 1 + N - 1 = N by omega]
      exact herr

/-- Witness for C2 at `N = 3`, `retryDelay = 2000`,
`retryMultiplier = 3/2`, with a provider that fails twice then succeeds:
exactly 3 calls, sleeps 2000 then 3000, result `hello`. -/
theorem translateWithRetry_backoff_law_witness :
    translateWithRetry retryMockProvider 3 2000 (3 / 2) =
      ⟨backoffSleeps 2 2000 (3 / 2), 3, .ok "hello"⟩ ∧
    backoffSleeps 2 2000 (3 / 2) = [2000, 3000] := by
  constructor
  · refine (translateWithRetry_backoff_law retryMockProvider 3 2000 (3 / 2)
      (by norm_num) (by norm_num) (by norm_num) ?_).1 "hello" ?_
    · intro i h1 h2
      refine ⟨"boom", ?_⟩
      interval_cases i <;> rfl
    · rfl
  · simp [backoffSleeps, List.range_succ]
    norm_num

theorem translateTextV2_eq_hit (provider : String → String → Nat → Except String JVal)
    (text lang : String) (opts : TOptions) (st : PState) (cached : String)
    (h : getCachedTranslation st.cache text lang = some cached) :
    translateTextV2 provider text lang opts st = (.ok cached, st) := by
  simp [translateTextV2, h]

theorem translateTextV2_eq_miss_ok (provider : String → String → Nat → Except String JVal)
    (text lang : String) (opts : TOptions) (st : PState) (tr : String)
    (h : getCachedTranslation st.cache text lang = none)
    (hr : (translateWithRetry (fun a => provider text lang a)
        opts.maxRetries opts.retryDelay opts.retryMultiplier).result = .ok tr) :
    translateTextV2 provider text lang opts st =
      (.ok tr, ⟨cacheTranslation st.cache text lang tr,
        st.callLog ++ List.replicate (translateWithRetry (fun a => provider text lang a)
          opts.maxRetries opts.retryDelay opts.retryMultiplier).calls (text, lang)⟩) := by
  simp [translateTextV2, h, hr]

theorem translateTextV2_eq_miss_err (provider : String → String → Nat → Except String JVal)
    (text lang : String) (opts : TOptions) (st : PState) (e : String)
    (h : getCachedTranslation st.cache text lang = none)
    (hr : (translateWithRetry (fun a => provider text lang a)
        opts.maxRetries opts.retryDelay opts.retryMultiplier).result = .error e) :
    translateTextV2 provider text lang opts st =
      (.error e, ⟨st.cache,
        st.callLog ++ List.replicate (translateWithRetry (fun a => provider text lang a)
          opts.maxRetries opts.retryDelay opts.retryMultiplier).calls (text, lang)⟩) := by
  simp [translateTextV2, h, hr]

/-- C8: an empty or non-string provider result is treated exactly like a
thrown provider error.  First, it is turned into the thrown error
`翻译结果无效` by the result validation of `translateWithRetry`; second,
the whole retry loop (its call count, its backoff sleeps and its final
outcome) observes the provider only through this uniform failure view, so
replacing an invalid result by a thrown error changes nothing; third, a
successful retry never yields an empty string; fourth, `translateText`
never resolves a leaf with an empty translation, from the cache or from
the provider. -/
theorem invalidResult_treated_as_providerError :
    (∀ v : JVal, (v = .str "" ∨ ∀ s, v ≠ .str s) →
      attemptOutcome (.ok v) = .error "翻译结果无效") ∧
    (∀ (p q : Nat → Except String JVal) (maxR : Nat) (d m : ℚ),
      (∀ j, attemptOutcome (p j) = attemptOutcome (q j)) →
      translateWithRetry p maxR d m = translateWithRetry q maxR d m) ∧
    (∀ (p : Nat → Except String JVal) (maxR : Nat) (d m : ℚ) (s : String),
      (translateWithRetry p maxR d m).result = .ok s → s ≠ "") ∧
    (∀ (provider : String → String → Nat → Except String JVal)
      (text lang : String) (opts : TOptions) (st : PState) (s : String) (st1 : PState),
      translateTextV2 provider text lang opts st = (.ok s, st1) → s ≠ "") := by
  refine ⟨?_, ?_, ?_, ?_⟩
  · intro v h
    rcases h with h | h
    · subst h; rfl
    · cases v with
      | str s => exact absurd rfl (h s)
      | num n => rfl
      | bool b => rfl
      | null => rfl
      | undef => rfl
      | obj fs => rfl
  · intro p q maxR d m h
    unfold translateWithRetry
    exact retryLoop_congr p q h maxR 1 d m
  · intro p maxR d m s h
    exact retryLoop_ok_ne_empty p maxR 1 d m s h
  · intro provider text lang opts st s st1 h
    cases hc : getCachedTranslation st.cache text lang with
    | some cached =>
      rw [translateTextV2_eq_hit provider text lang opts st cached hc] at h
      have hs : cached = s := by
        have := congrArg Prod.fst h
        simpa using this
      subst hs
      exact getCachedTranslation_ne_empty st.cache text lang cached hc
    | none =>
      cases hr : (translateWithRetry (fun a => provider text lang a)
          opts.maxRetries opts.retryDelay opts.retryMultiplier).result with
      | ok tr =>
        rw [translateTextV2_eq_miss_ok provider text lang opts st tr hc hr] at h
        have hs : tr = s := by
          have := congrArg Prod.fst h
          simpa using this
        subst hs
        exact retryLoop_ok_ne_empty _ opts.maxRetries 1 _ _ tr hr
      | error e =>
        rw [translateTextV2_eq_miss_err provider text lang opts st e hc hr] at h
        have := congrArg Prod.fst h
        simp at this

/-- Witness for C8: the non-string result `num 7` and the empty string
both become the thrown error `翻译结果无效`, and a provider returning the
empty string drives the retry loop exactly like one throwing that error. -/
theorem invalidResult_treated_as_providerError_witness :
    attemptOutcome (.ok (JVal.num 7)) = .error "翻译结果无效" ∧
    translateWithRetry (fun _ => .ok (.str "")) 2 10 2 =
      translateWithRetry (fun _ => .error "翻译结果无效") 2 10 2 := by
  constructor
  · exact invalidResult_treated_as_providerError.1 (JVal.num 7)
      (Or.inr (fun s h => JVal.noConfusion h))
  · exact invalidResult_treated_as_providerError.2.1
      (fun _ => .ok (.str "")) (fun _ => .error "翻译结果无效") 2 10 2
      (fun j => rfl)

/-- Key-aligned relation between an input document and an output document:
the same keys in the same order, nested objects aligned with nested objects
(recursively related), and each non-object input value aligned with a
non-object output value related by `R`. -/
inductive LeafwiseR (R : JVal → JVal → Prop) :
    List (String × JVal) → List (String × JVal) → Prop where
  | nil : LeafwiseR R [] []
  | objF (k : String) (fs gs rest rest2 : List (String × JVal)) :
      LeafwiseR R fs gs → LeafwiseR R rest rest2 →
      LeafwiseR R ((k, .obj fs) :: rest) ((k, .obj gs) :: rest2)
  | leaf (k : String) (v w : JVal) (rest rest2 : List (String × JVal)) :
      v.isObj = false → w.isObj = false → R v w →
      LeafwiseR R rest rest2 →
      LeafwiseR R ((k, v) :: rest) ((k, w) :: rest2)

/-- A key-aligned output has the same key set, nesting and key order as the
input. -/
theorem LeafwiseR.sameStructure_of {R : JVal → JVal → Prop} :
    ∀ {doc out : List (String × JVal)}, LeafwiseR R doc out →
      sameStructure doc out = true := by
  intro doc out h
  induction h with
  | nil => simp [sameStructure]
  | objF k fs gs rest rest2 _ _ ihf ihr =>
    simp [sameStructure, ihf, ihr]
  | leaf k v w rest rest2 hv hw _ _ ihr =>
    cases v with
    | obj fs => exact absurd hv (by simp [JVal.isObj])
    | str s => simp [sameStructure, hw, ihr]
    | num n => simp [sameStructure, hw, ihr]
    | bool b => simp [sameStructure, hw, ihr]
    | null => simp [sameStructure, hw, ihr]
    | undef => simp [sameStructure, hw, ihr]

theorem findValue_nil (k0 : String) : findValue k0 [] = none := rfl

theorem findValue_cons (k0 k : String) (v : JVal) (rest : List (String × JVal)) :
    findValue k0 ((k, v) :: rest) =
      if k == k0 then some v else findValue k0 rest := by
  by_cases h : (k == k0) = true
  · simp [findValue, List.find?, h]
  · simp only [Bool.not_eq_true] at h
    simp [findValue, List.find?, h]

theorem lookupPath_single (k0 : String) (fields : List (String × JVal)) :
    lookupPath [k0] fields = findValue k0 fields := rfl

theorem lookupPath_cons2 (k0 k1 : String) (p2 : List String)
    (fields : List (String × JVal)) :
    lookupPath (k0 :: k1 :: p2) fields =
      (match findValue k0 fields with
       | some (.obj fs) => lookupPath (k1 :: p2) fs
       | _ => none) := rfl

theorem lookupPath_cons2_obj (k0 k1 : String) (p2 : List String)
    (fields fs : List (String × JVal))
    (h : findValue k0 fields = some (.obj fs)) :
    lookupPath (k0 :: k1 :: p2) fields = lookupPath (k1 :: p2) fs := by
  rw [lookupPath_cons2, h]

theorem lookupPath_cons2_nonobj (k0 k1 : String) (p2 : List String)
    (fields : List (String × JVal)) (v : JVal)
    (h : findValue k0 fields = some v) (hv : v.isObj = false) :
    lookupPath (k0 :: k1 :: p2) fields = none := by
  rw [lookupPath_cons2, h]
  cases v with
  | obj fs => exact absurd hv (by simp [JVal.isObj])
  | str s => rfl
  | num n => rfl
  | bool b => rfl
  | null => rfl
  | undef => rfl

theorem lookupPath_cons2_none (k0 k1 : String) (p2 : List String)
    (fields : List (String × JVal)) (h : findValue k0 fields = none) :
    lookupPath (k0 :: k1 :: p2) fields = none := by
  rw [lookupPath_cons2, h]

/-- Looking up a key different from the head key skips the head entry. -/
theorem lookupPath_cons_ne (k0 : String) (p1 : List String) (k : String)
    (v : JVal) (rest : List (String × JVal)) (hk : (k == k0) = false) :
    lookupPath (k0 :: p1) ((k, v) :: rest) = lookupPath (k0 :: p1) rest := by
  cases p1 with
  | nil =>
    rw [lookupPath_single, lookupPath_single, findValue_cons, if_neg (by simp [hk])]
  | cons k1 p2 =>
    rw [lookupPath_cons2, lookupPath_cons2, findValue_cons, if_neg (by simp [hk])]

/-- A key-aligned output takes, at every path that leads to a non-object
value of the input, a related value. -/
theorem LeafwiseR.lookupPath_of {R : JVal → JVal → Prop} :
    ∀ {doc out : List (String × JVal)}, LeafwiseR R doc out →
      ∀ (path : List String) (v : JVal), lookupPath path doc = some v →
        v.isObj = false →
        ∃ w, lookupPath path out = some w ∧ w.isObj = false ∧ R v w := by
  intro doc out h
  induction h with
  | nil =>
    intro path v hl _
    exfalso
    cases path with
    | nil => exact Option.noConfusion hl
    | cons k0 p1 =>
      cases p1 with
      | nil =>
        rw [lookupPath_single, findValue_nil] at hl
        exact Option.noConfusion hl
      | cons k1 p2 =>
        rw [lookupPath_cons2_none k0 k1 p2 [] (findValue_nil k0)] at hl
        exact Option.noConfusion hl
  | objF k fs gs rest rest2 hfs hrest ihf ihr =>
    intro path v hl hv
    cases path with
    | nil => exact absurd hl (by simp [lookupPath])
    | cons k0 p1 =>
      by_cases hk : (k == k0) = true
      · cases p1 with
        | nil =>
          rw [lookupPath_single, findValue_cons, if_pos hk] at hl
          cases hl
          exact absurd hv (by simp [JVal.isObj])
        | cons k1 p2 =>
          have hfv : findValue k0 ((k, JVal.obj fs) :: rest) = some (JVal.obj fs) := by
            rw [findValue_cons, if_pos hk]
          rw [lookupPath_cons2_obj k0 k1 p2 _ fs hfv] at hl
          obtain ⟨w, hw1, hw2, hw3⟩ := ihf (k1 :: p2) v hl hv
          have hgv : findValue k0 ((k, JVal.obj gs) :: rest2) = some (JVal.obj gs) := by
            rw [findValue_cons, if_pos hk]
          exact ⟨w, by rw [lookupPath_cons2_obj k0 k1 p2 _ gs hgv]; exact hw1, hw2, hw3⟩
      · simp only [Bool.not_eq_true] at hk
        rw [lookupPath_cons_ne k0 p1 k _ rest hk] at hl
        obtain ⟨w, hw1, hw2, hw3⟩ := ihr (k0 :: p1) v hl hv
        exact ⟨w, by rw [lookupPath_cons_ne k0 p1 k _ rest2 hk]; exact hw1, hw2, hw3⟩
  | leaf k v0 w0 rest rest2 hv0 hw0 hR hrest ihr =>
    intro path v hl hv
    cases path with
    | nil => exact absurd hl (by simp [lookupPath])
    | cons k0 p1 =>
      by_cases hk : (k == k0) = true
      · cases p1 with
        | nil =>
          rw [lookupPath_single, findValue_cons, if_pos hk] at hl
          cases hl
          exact ⟨w0, by rw [lookupPath_single, findValue_cons, if_pos hk], hw0, hR⟩
        | cons k1 p2 =>
          have hfv : findValue k0 ((k, v0) :: rest) = some v0 := by
            rw [findValue_cons, if_pos hk]
          rw [lookupPath_cons2_nonobj k0 k1 p2 _ v0 hfv hv0] at hl
          exact absurd hl (by simp)
      · simp only [Bool.not_eq_true] at hk
        rw [lookupPath_cons_ne k0 p1 k _ rest hk] at hl
        obtain ⟨w, hw1, hw2, hw3⟩ := ihr (k0 :: p1) v hl hv
        exact ⟨w, by rw [lookupPath_cons_ne k0 p1 k _ rest2 hk]; exact hw1, hw2, hw3⟩

theorem tlP6_eq_nil (provider : String → String → Except String JVal)
    (lang : String) (cache : Cache) :
    translateLanguageP6 provider lang [] cache = ([], cache) := by
  simp [translateLanguageP6]

theorem tlP6_eq_str_hit (provider : String → String → Except String JVal)
    (lang k s : String) (rest : List (String × JVal)) (cache : Cache)
    (cached : String) (h : getCachedTranslation cache s lang = some cached) :
    translateLanguageP6 provider lang ((k, .str s) :: rest) cache =
      ((k, .str cached) :: (translateLanguageP6 provider lang rest cache).1,
       (translateLanguageP6 provider lang rest cache).2) := by
  simp [translateLanguageP6, h]

theorem tlP6_eq_str_miss_ok (provider : String → String → Except String JVal)
    (lang k s : String) (rest : List (String × JVal)) (cache : Cache)
    (t : String) (h : getCachedTranslation cache s lang = none)
    (ha : attemptOutcome (provider s lang) = .ok t) :
    translateLanguageP6 provider lang ((k, .str s) :: rest) cache =
      ((k, .str t) ::
        (translateLanguageP6 provider lang rest (cacheTranslation cache s lang t)).1,
       (translateLanguageP6 provider lang rest (cacheTranslation cache s lang t)).2) := by
  simp [translateLanguageP6, h, ha]

theorem tlP6_eq_str_miss_err (provider : String → String → Except String JVal)
    (lang k s : String) (rest : List (String × JVal)) (cache : Cache)
    (msg : String) (h : getCachedTranslation cache s lang = none)
    (ha : attemptOutcome (provider s lang) = .error msg) :
    translateLanguageP6 provider lang ((k, .str s) :: rest) cache =
      ((k, .str ("[TRANSLATION_FAILED] " ++ s)) ::
        (translateLanguageP6 provider lang rest cache).1,
       (translateLanguageP6 provider lang rest cache).2) := by
  simp [translateLanguageP6, h, ha]

theorem tlP6_eq_obj (provider : String → String → Except String JVal)
    (lang k : String) (fs rest : List (String × JVal)) (cache : Cache) :
    translateLanguageP6 provider lang ((k, .obj fs) :: rest) cache =
      ((k, .obj (translateLanguageP6 provider lang fs cache).1) ::
        (translateLanguageP6 provider lang rest
          (translateLanguageP6 provider lang fs cache).2).1,
       (translateLanguageP6 provider lang rest
         (translateLanguageP6 provider lang fs cache).2).2) := by
  simp [translateLanguageP6]

theorem tlP6_eq_scalar (provider : String → String → Except String JVal)
    (lang k : String) (v : JVal) (rest : List (String × JVal)) (cache : Cache)
    (hv : v.isNonStringScalar = true) :
    translateLanguageP6 provider lang ((k, v) :: rest) cache =
      ((k, .str (jsString v)) :: (translateLanguageP6 provider lang rest cache).1,
       (translateLanguageP6 provider lang rest cache).2) := by
  cases v with
  | str s => exact absurd hv (by simp [JVal.isNonStringScalar])
  | obj fs => exact absurd hv (by simp [JVal.isNonStringScalar])
  | num n => simp [translateLanguageP6]
  | bool b => simp [translateLanguageP6]
  | null => simp [translateLanguageP6]
  | undef => simp [translateLanguageP6]

/-- A key-aligned output carries the same key list as the input. -/
theorem LeafwiseR.keys_eq {R : JVal → JVal → Prop} :
    ∀ {doc out : List (String × JVal)}, LeafwiseR R doc out →
      doc.map Prod.fst = out.map Prod.fst := by
  intro doc out h
  induction h with
  | nil => rfl
  | objF k fs gs rest rest2 _ _ ihf ihr => simp [ihr]
  | leaf k v w rest rest2 _ _ _ _ ihr => simp [ihr]

/-- A key-aligned output takes, at every path that leads to a nested
object of the input, a key-aligned nested object. -/
theorem LeafwiseR.lookupPath_obj_of {R : JVal → JVal → Prop} :
    ∀ {doc out : List (String × JVal)}, LeafwiseR R doc out →
      ∀ (path : List String) (fs : List (String × JVal)),
        lookupPath path doc = some (.obj fs) →
        ∃ gs, lookupPath path out = some (.obj gs) ∧ LeafwiseR R fs gs := by
  intro doc out h
  induction h with
  | nil =>
    intro path fs hl
    exfalso
    cases path with
    | nil => exact Option.noConfusion hl
    | cons k0 p1 =>
      cases p1 with
      | nil =>
        rw [lookupPath_single, findValue_nil] at hl
        exact Option.noConfusion hl
      | cons k1 p2 =>
        rw [lookupPath_cons2_none k0 k1 p2 [] (findValue_nil k0)] at hl
        exact Option.noConfusion hl
  | objF k fs0 gs0 rest rest2 hfs hrest ihf ihr =>
    intro path fs hl
    cases path with
    | nil => exact absurd hl (by simp [lookupPath])
    | cons k0 p1 =>
      by_cases hk : (k == k0) = true
      · cases p1 with
        | nil =>
          rw [lookupPath_single, findValue_cons, if_pos hk] at hl
          cases hl
          exact ⟨gs0, by rw [lookupPath_single, findValue_cons, if_pos hk], hfs⟩
        | cons k1 p2 =>
          have hfv : findValue k0 ((k, JVal.obj fs0) :: rest) = some (JVal.obj fs0) := by
            rw [findValue_cons, if_pos hk]
          rw [lookupPath_cons2_obj k0 k1 p2 _ fs0 hfv] at hl
          obtain ⟨gs, hg1, hg2⟩ := ihf (k1 :: p2) fs hl
          have hgv : findValue k0 ((k, JVal.obj gs0) :: rest2) = some (JVal.obj gs0) := by
            rw [findValue_cons, if_pos hk]
          exact ⟨gs, by rw [lookupPath_cons2_obj k0 k1 p2 _ gs0 hgv]; exact hg1, hg2⟩
      · simp only [Bool.not_eq_true] at hk
        rw [lookupPath_cons_ne k0 p1 k _ rest hk] at hl
        obtain ⟨gs, hg1, hg2⟩ := ihr (k0 :: p1) fs hl
        exact ⟨gs, by rw [lookupPath_cons_ne k0 p1 k _ rest2 hk]; exact hg1, hg2⟩
  | leaf k v0 w0 rest rest2 hv0 hw0 hR hrest ihr =>
    intro path fs hl
    cases path with
    | nil => exact absurd hl (by simp [lookupPath])
    | cons k0 p1 =>
      by_cases hk : (k == k0) = true
      · cases p1 with
        | nil =>
          rw [lookupPath_single, findValue_cons, if_pos hk] at hl
          cases hl
          exact absurd hv0 (by simp [JVal.isObj])
        | cons k1 p2 =>
          have hfv : findValue k0 ((k, v0) :: rest) = some v0 := by
            rw [findValue_cons, if_pos hk]
          rw [lookupPath_cons2_nonobj k0 k1 p2 _ v0 hfv hv0] at hl
          exact absurd hl (by simp)
      · simp only [Bool.not_eq_true] at hk
        rw [lookupPath_cons_ne k0 p1 k _ rest hk] at hl
        obtain ⟨gs, hg1, hg2⟩ := ihr (k0 :: p1) fs hl
        exact ⟨gs, by rw [lookupPath_cons_ne k0 p1 k _ rest2 hk]; exact hg1, hg2⟩

/-- Whatever the provider does, a `part_006` language run is key-aligned
with the input, and every non-string scalar comes out as its JavaScript
string form. -/
theorem tlP6_leafwise (provider : String → String → Except String JVal)
    (lang : String) :
    ∀ (doc : List (String × JVal)) (cache : Cache),
      LeafwiseR (fun v w => (v.isNonStringScalar = true → w = .str (jsString v)) ∧
          ∃ u, w = .str u)
        doc (translateLanguageP6 provider lang doc cache).1
  | [], cache => by
    rw [tlP6_eq_nil]
    exact .nil
  | (k, .str s) :: rest, cache => by
    cases hc : getCachedTranslation cache s lang with
    | some cached =>
      rw [tlP6_eq_str_hit provider lang k s rest cache cached hc]
      exact .leaf k _ _ rest _ (by simp [JVal.isObj]) (by simp [JVal.isObj])
        ⟨by intro h; exact absurd h (by simp [JVal.isNonStringScalar]), _, rfl⟩
        (tlP6_leafwise provider lang rest cache)
    | none =>
      cases ha : attemptOutcome (provider s lang) with
      | ok t =>
        rw [tlP6_eq_str_miss_ok provider lang k s rest cache t hc ha]
        exact .leaf k _ _ rest _ (by simp [JVal.isObj]) (by simp [JVal.isObj])
          ⟨by intro h; exact absurd h (by simp [JVal.isNonStringScalar]), _, rfl⟩
          (tlP6_leafwise provider lang rest (cacheTranslation cache s lang t))
      | error msg =>
        rw [tlP6_eq_str_miss_err provider lang k s rest cache msg hc ha]
        exact .leaf k _ _ rest _ (by simp [JVal.isObj]) (by simp [JVal.isObj])
          ⟨by intro h; exact absurd h (by simp [JVal.isNonStringScalar]), _, rfl⟩
          (tlP6_leafwise provider lang rest cache)
  | (k, .obj fs) :: rest, cache => by
    rw [tlP6_eq_obj]
    exact .objF k fs _ rest _ (tlP6_leafwise provider lang fs cache)
      (tlP6_leafwise provider lang rest (translateLanguageP6 provider lang fs cache).2)
  | (k, .num n) :: rest, cache => by
    rw [tlP6_eq_scalar provider lang k (.num n) rest cache (by simp [JVal.isNonStringScalar])]
    exact .leaf k _ _ rest _ (by simp [JVal.isObj]) (by simp [JVal.isObj])
      ⟨fun _ => rfl, _, rfl⟩ (tlP6_leafwise provider lang rest cache)
  | (k, .bool b) :: rest, cache => by
    rw [tlP6_eq_scalar provider lang k (.bool b) rest cache (by simp [JVal.isNonStringScalar])]
    exact .leaf k _ _ rest _ (by simp [JVal.isObj]) (by simp [JVal.isObj])
      ⟨fun _ => rfl, _, rfl⟩ (tlP6_leafwise provider lang rest cache)
  | (k, .null) :: rest, cache => by
    rw [tlP6_eq_scalar provider lang k .null rest cache (by simp [JVal.isNonStringScalar])]
    exact .leaf k _ _ rest _ (by simp [JVal.isObj]) (by simp [JVal.isObj])
      ⟨fun _ => rfl, _, rfl⟩ (tlP6_leafwise provider lang rest cache)
  | (k, .undef) :: rest, cache => by
    rw [tlP6_eq_scalar provider lang k .undef rest cache (by simp [JVal.isNonStringScalar])]
    exact .leaf k _ _ rest _ (by simp [JVal.isObj]) (by simp [JVal.isObj])
      ⟨fun _ => rfl, _, rfl⟩ (tlP6_leafwise provider lang rest cache)

theorem tlV2_eq_nil (provider : String → String → Nat → Except String JVal)
    (lang : String) (opts : TOptions) (st : PState) :
    translateLanguageV2 provider lang opts [] st = (.ok [], st) := by
  simp [translateLanguageV2]

theorem tlV2_eq_str_err (provider : String → String → Nat → Except String JVal)
    (lang : String) (opts : TOptions) (k s : String)
    (rest : List (String × JVal)) (st st1 : PState) (e : String)
    (h : translateTextV2 provider s lang opts st = (.error e, st1)) :
    translateLanguageV2 provider lang opts ((k, .str s) :: rest) st = (.error e, st1) := by
  simp [translateLanguageV2, h]

theorem tlV2_eq_str_ok_ok (provider : String → String → Nat → Except String JVal)
    (lang : String) (opts : TOptions) (k s : String)
    (rest : List (String × JVal)) (st st1 st2 : PState) (t : String)
    (out : List (String × JVal))
    (h1 : translateTextV2 provider s lang opts st = (.ok t, st1))
    (h2 : translateLanguageV2 provider lang opts rest st1 = (.ok out, st2)) :
    translateLanguageV2 provider lang opts ((k, .str s) :: rest) st =
      (.ok ((k, .str t) :: out), st2) := by
  simp [translateLanguageV2, h1, h2]

theorem tlV2_eq_str_ok_err (provider : String → String → Nat → Except String JVal)
    (lang : String) (opts : TOptions) (k s : String)
    (rest : List (String × JVal)) (st st1 st2 : PState) (t e : String)
    (h1 : translateTextV2 provider s lang opts st = (.ok t, st1))
    (h2 : translateLanguageV2 provider lang opts rest st1 = (.error e, st2)) :
    translateLanguageV2 provider lang opts ((k, .str s) :: rest) st = (.error e, st2) := by
  simp [translateLanguageV2, h1, h2]

theorem tlV2_eq_obj_err (provider : String → String → Nat → Except String JVal)
    (lang : String) (opts : TOptions) (k : String)
    (fs rest : List (String × JVal)) (st st1 : PState) (e : String)
    (h : translateLanguageV2 provider lang opts fs st = (.error e, st1)) :
    translateLanguageV2 provider lang opts ((k, .obj fs) :: rest) st = (.error e, st1) := by
  simp [translateLanguageV2, h]

theorem tlV2_eq_obj_ok_ok (provider : String → String → Nat → Except String JVal)
    (lang : String) (opts : TOptions) (k : String)
    (fs rest : List (String × JVal)) (st st1 st2 : PState)
    (inner out : List (String × JVal))
    (h1 : translateLanguageV2 provider lang opts fs st = (.ok inner, st1))
    (h2 : translateLanguageV2 provider lang opts rest st1 = (.ok out, st2)) :
    translateLanguageV2 provider lang opts ((k, .obj fs) :: rest) st =
      (.ok ((k, .obj inner) :: out), st2) := by
  simp [translateLanguageV2, h1, h2]

theorem tlV2_eq_obj_ok_err (provider : String → String → Nat → Except String JVal)
    (lang : String) (opts : TOptions) (k : String)
    (fs rest : List (String × JVal)) (st st1 st2 : PState)
    (inner : List (String × JVal)) (e : String)
    (h1 : translateLanguageV2 provider lang opts fs st = (.ok inner, st1))
    (h2 : translateLanguageV2 provider lang opts rest st1 = (.error e, st2)) :
    translateLanguageV2 provider lang opts ((k, .obj fs) :: rest) st = (.error e, st2) := by
  simp [translateLanguageV2, h1, h2]

theorem tlV2_eq_null_ok (provider : String → String → Nat → Except String JVal)
    (lang : String) (opts : TOptions) (k : String)
    (rest : List (String × JVal)) (st st1 : PState) (out : List (String × JVal))
    (h : translateLanguageV2 provider lang opts rest st = (.ok out, st1)) :
    translateLanguageV2 provider lang opts ((k, .null) :: rest) st =
      (.ok ((k, .str "") :: out), st1) := by
  simp [translateLanguageV2, h]

theorem tlV2_eq_null_err (provider : String → String → Nat → Except String JVal)
    (lang : String) (opts : TOptions) (k : String)
    (rest : List (String × JVal)) (st st1 : PState) (e : String)
    (h : translateLanguageV2 provider lang opts rest st = (.error e, st1)) :
    translateLanguageV2 provider lang opts ((k, .null) :: rest) st = (.error e, st1) := by
  simp [translateLanguageV2, h]

theorem tlV2_eq_undef_ok (provider : String → String → Nat → Except String JVal)
    (lang : String) (opts : TOptions) (k : String)
    (rest : List (String × JVal)) (st st1 : PState) (out : List (String × JVal))
    (h : translateLanguageV2 provider lang opts rest st = (.ok out, st1)) :
    translateLanguageV2 provider lang opts ((k, .undef) :: rest) st =
      (.ok ((k, .str "") :: out), st1) := by
  simp [translateLanguageV2, h]

theorem tlV2_eq_undef_err (provider : String → String → Nat → Except String JVal)
    (lang : String) (opts : TOptions) (k : String)
    (rest : List (String × JVal)) (st st1 : PState) (e : String)
    (h : translateLanguageV2 provider lang opts rest st = (.error e, st1)) :
    translateLanguageV2 provider lang opts ((k, .undef) :: rest) st = (.error e, st1) := by
  simp [translateLanguageV2, h]

theorem tlV2_eq_num_ok (provider : String → String → Nat → Except String JVal)
    (lang : String) (opts : TOptions) (k : String) (n : Int)
    (rest : List (String × JVal)) (st st1 : PState) (out : List (String × JVal))
    (h : translateLanguageV2 provider lang opts rest st = (.ok out, st1)) :
    translateLanguageV2 provider lang opts ((k, .num n) :: rest) st =
      (.ok ((k, .str (jsString (.num n))) :: out), st1) := by
  simp [translateLanguageV2, h]

theorem tlV2_eq_num_err (provider : String → String → Nat → Except String JVal)
    (lang : String) (opts : TOptions) (k : String) (n : Int)
    (rest : List (String × JVal)) (st st1 : PState) (e : String)
    (h : translateLanguageV2 provider lang opts rest st = (.error e, st1)) :
    translateLanguageV2 provider lang opts ((k, .num n) :: rest) st = (.error e, st1) := by
  simp [translateLanguageV2, h]

theorem tlV2_eq_bool_ok (provider : String → String → Nat → Except String JVal)
    (lang : String) (opts : TOptions) (k : String) (b : Bool)
    (rest : List (String × JVal)) (st st1 : PState) (out : List (String × JVal))
    (h : translateLanguageV2 provider lang opts rest st = (.ok out, st1)) :
    translateLanguageV2 provider lang opts ((k, .bool b) :: rest) st =
      (.ok ((k, .str (jsString (.bool b))) :: out), st1) := by
  simp [translateLanguageV2, h]

theorem tlV2_eq_bool_err (provider : String → String → Nat → Except String JVal)
    (lang : String) (opts : TOptions) (k : String) (b : Bool)
    (rest : List (String × JVal)) (st st1 : PState) (e : String)
    (h : translateLanguageV2 provider lang opts rest st = (.error e, st1)) :
    translateLanguageV2 provider lang opts ((k, .bool b) :: rest) st = (.error e, st1) := by
  simp [translateLanguageV2, h]

/-- A successful cached sequential run is key-aligned with its input and
sends every `null`/`undefined` leaf to the empty string. -/
theorem tlV2_leafwise (provider : String → String → Nat → Except String JVal)
    (lang : String) (opts : TOptions) :
    ∀ (doc : List (String × JVal)) (st : PState) (out : List (String × JVal)) (st1 : PState),
      translateLanguageV2 provider lang opts doc st = (.ok out, st1) →
      LeafwiseR (fun v w => (v = .null ∨ v = .undef) → w = .str "") doc out
  | [], st, out, st1 => by
    intro h
    rw [tlV2_eq_nil] at h
    cases h
    exact .nil
  | (k, .str s) :: rest, st, out, st1 => by
    intro h
    rcases htx : translateTextV2 provider s lang opts st with ⟨res, stA⟩
    cases res with
    | error e =>
      rw [tlV2_eq_str_err provider lang opts k s rest st stA e htx] at h
      exact absurd h (by simp)
    | ok t =>
      rcases hrest : translateLanguageV2 provider lang opts rest stA with ⟨res2, stB⟩
      cases res2 with
      | error e =>
        rw [tlV2_eq_str_ok_err provider lang opts k s rest st stA stB t e htx hrest] at h
        exact absurd h (by simp)
      | ok out2 =>
        rw [tlV2_eq_str_ok_ok provider lang opts k s rest st stA stB t out2 htx hrest] at h
        cases h
        exact .leaf k _ _ rest out2 (by simp [JVal.isObj]) (by simp [JVal.isObj])
          (by rintro (hx | hx) <;> exact JVal.noConfusion hx)
          (tlV2_leafwise provider lang opts rest stA out2 _ hrest)
  | (k, .obj fs) :: rest, st, out, st1 => by
    intro h
    rcases hin : translateLanguageV2 provider lang opts fs st with ⟨res, stA⟩
    cases res with
    | error e =>
      rw [tlV2_eq_obj_err provider lang opts k fs rest st stA e hin] at h
      exact absurd h (by simp)
    | ok inner =>
      rcases hrest : translateLanguageV2 provider lang opts rest stA with ⟨res2, stB⟩
      cases res2 with
      | error e =>
        rw [tlV2_eq_obj_ok_err provider lang opts k fs rest st stA stB inner e hin hrest] at h
        exact absurd h (by simp)
      | ok out2 =>
        rw [tlV2_eq_obj_ok_ok provider lang opts k fs rest st stA stB inner out2 hin hrest] at h
        cases h
        exact .objF k fs inner rest out2
          (tlV2_leafwise provider lang opts fs st inner stA hin)
          (tlV2_leafwise provider lang opts rest stA out2 _ hrest)
  | (k, .null) :: rest, st, out, st1 => by
    intro h
    rcases hrest : translateLanguageV2 provider lang opts rest st with ⟨res2, stB⟩
    cases res2 with
    | error e =>
      rw [tlV2_eq_null_err provider lang opts k rest st stB e hrest] at h
      exact absurd h (by simp)
    | ok out2 =>
      rw [tlV2_eq_null_ok provider lang opts k rest st stB out2 hrest] at h
      cases h
      exact .leaf k _ _ rest out2 (by simp [JVal.isObj]) (by simp [JVal.isObj])
        (fun _ => rfl)
        (tlV2_leafwise provider lang opts rest st out2 _ hrest)
  | (k, .undef) :: rest, st, out, st1 => by
    intro h
    rcases hrest : translateLanguageV2 provider lang opts rest st with ⟨res2, stB⟩
    cases res2 with
    | error e =>
      rw [tlV2_eq_undef_err provider lang opts k rest st stB e hrest] at h
      exact absurd h (by simp)
    | ok out2 =>
      rw [tlV2_eq_undef_ok provider lang opts k rest st stB out2 hrest] at h
      cases h
      exact .leaf k _ _ rest out2 (by simp [JVal.isObj]) (by simp [JVal.isObj])
        (fun _ => rfl)
        (tlV2_leafwise provider lang opts rest st out2 _ hrest)
  | (k, .num n) :: rest, st, out, st1 => by
    intro h
    rcases hrest : translateLanguageV2 provider lang opts rest st with ⟨res2, stB⟩
    cases res2 with
    | error e =>
      rw [tlV2_eq_num_err provider lang opts k n rest st stB e hrest] at h
      exact absurd h (by simp)
    | ok out2 =>
      rw [tlV2_eq_num_ok provider lang opts k n rest st stB out2 hrest] at h
      cases h
      exact .leaf k _ _ rest out2 (by simp [JVal.isObj]) (by simp [JVal.isObj])
        (by rintro (hx | hx) <;> exact JVal.noConfusion hx)
        (tlV2_leafwise provider lang opts rest st out2 _ hrest)
  | (k, .bool b) :: rest, st, out, st1 => by
    intro h
    rcases hrest : translateLanguageV2 provider lang opts rest st with ⟨res2, stB⟩
    cases res2 with
    | error e =>
      rw [tlV2_eq_bool_err provider lang opts k b rest st stB e hrest] at h
      exact absurd h (by simp)
    | ok out2 =>
      rw [tlV2_eq_bool_ok provider lang opts k b rest st stB out2 hrest] at h
      cases h
      exact .leaf k _ _ rest out2 (by simp [JVal.isObj]) (by simp [JVal.isObj])
        (by rintro (hx | hx) <;> exact JVal.noConfusion hx)
        (tlV2_leafwise provider lang opts rest st out2 _ hrest)

/-- C10: in the cached sequential `translateLanguage` of
`src/utils/file-processor.ts`, every leaf whose value is `null` or
`undefined` is represented in the output document as the empty string,
for every input document, provider, options and target language. -/
theorem translateLanguage_null_undef_to_empty
    (provider : String → String → Nat → Except String JVal)
    (lang : String) (opts : TOptions) (doc : List (String × JVal))
    (st st1 : PState) (out : List (String × JVal)) (path : List String) (v : JVal)
    (h : translateLanguageV2 provider lang opts doc st = (.ok out, st1))
    (hp : lookupPath path doc = some v) (hv : v = .null ∨ v = .undef) :
    lookupPath path out = some (.str "") := by
  have hlw := tlV2_leafwise provider lang opts doc st out st1 h
  have hobj : v.isObj = false := by
    rcases hv with hv | hv <;> subst hv <;> simp [JVal.isObj]
  obtain ⟨w, hw1, -, hw3⟩ := hlw.lookupPath_of path v hp hobj
  rw [hw1, hw3 hv]

/-- Witness for C10: a run over `{"a": null, "b": 5}` yields
`{"a": "", "b": "5"}`, and the `null` leaf is looked up as empty. -/
theorem translateLanguage_null_undef_to_empty_witness :
    lookupPath ["a"] [("a", JVal.str ""), ("b", JVal.str "5")] = some (.str "") := by
  have h0 := tlV2_eq_nil (fun _ _ _ => .error "noop") "en" DEFAULT_OPTIONS emptyPState
  have h1 := tlV2_eq_num_ok (fun _ _ _ => .error "noop") "en" DEFAULT_OPTIONS
    "b" 5 [] emptyPState emptyPState [] h0
  have h2 := tlV2_eq_null_ok (fun _ _ _ => .error "noop") "en" DEFAULT_OPTIONS
    "a" [("b", JVal.num 5)] emptyPState emptyPState [("b", JVal.str (jsString (.num 5)))] h1
  exact translateLanguage_null_undef_to_empty (fun _ _ _ => .error "noop") "en"
    DEFAULT_OPTIONS [("a", JVal.null), ("b", JVal.num 5)] emptyPState emptyPState
    [("a", JVal.str ""), ("b", JVal.str (jsString (.num 5)))] ["a"] JVal.null
    h2 rfl (Or.inl rfl)

theorem tOF_eq_nil (provider : String → String → Except String String)
    (lang : String) (log : List String) :
    translateObjectFields provider lang [] log = (.ok [], log) := by
  simp [translateObjectFields]

theorem tOF_eq_obj_err (provider : String → String → Except String String)
    (lang k : String) (fs rest : List (String × JVal)) (log log1 : List String)
    (e : String)
    (h : translateObjectFields provider lang fs log = (.error e, log1)) :
    translateObjectFields provider lang ((k, .obj fs) :: rest) log = (.error e, log1) := by
  simp [translateObjectFields, h]

theorem tOF_eq_obj_ok_ok (provider : String → String → Except String String)
    (lang k : String) (fs rest : List (String × JVal)) (log log1 log2 : List String)
    (inner out : List (String × JVal))
    (h1 : translateObjectFields provider lang fs log = (.ok inner, log1))
    (h2 : translateObjectFields provider lang rest log1 = (.ok out, log2)) :
    translateObjectFields provider lang ((k, .obj fs) :: rest) log =
      (.ok ((k, .obj inner) :: out), log2) := by
  simp [translateObjectFields, h1, h2]

theorem tOF_eq_obj_ok_err (provider : String → String → Except String String)
    (lang k : String) (fs rest : List (String × JVal)) (log log1 log2 : List String)
    (inner : List (String × JVal)) (e : String)
    (h1 : translateObjectFields provider lang fs log = (.ok inner, log1))
    (h2 : translateObjectFields provider lang rest log1 = (.error e, log2)) :
    translateObjectFields provider lang ((k, .obj fs) :: rest) log = (.error e, log2) := by
  simp [translateObjectFields, h1, h2]

theorem tOF_eq_str_ch_err (provider : String → String → Except String String)
    (lang k s : String) (rest : List (String × JVal)) (log : List String) (e : String)
    (hch : isChineseText s = true) (hp : provider s lang = .error e) :
    translateObjectFields provider lang ((k, .str s) :: rest) log =
      (.error e, log ++ [s]) := by
  simp [translateObjectFields, hch, hp]

theorem tOF_eq_str_ch_ok_ok (provider : String → String → Except String String)
    (lang k s : String) (rest : List (String × JVal)) (log log1 : List String)
    (t : String) (out : List (String × JVal))
    (hch : isChineseText s = true) (hp : provider s lang = .ok t)
    (h2 : translateObjectFields provider lang rest (log ++ [s]) = (.ok out, log1)) :
    translateObjectFields provider lang ((k, .str s) :: rest) log =
      (.ok ((k, .str t) :: out), log1) := by
  simp [translateObjectFields, hch, hp, h2]

theorem tOF_eq_str_ch_ok_err (provider : String → String → Except String String)
    (lang k s : String) (rest : List (String × JVal)) (log log1 : List String)
    (t e : String)
    (hch : isChineseText s = true) (hp : provider s lang = .ok t)
    (h2 : translateObjectFields provider lang rest (log ++ [s]) = (.error e, log1)) :
    translateObjectFields provider lang ((k, .str s) :: rest) log = (.error e, log1) := by
  simp [translateObjectFields, hch, hp, h2]

theorem tOF_eq_str_nch_ok (provider : String → String → Except String String)
    (lang k s : String) (rest : List (String × JVal)) (log log1 : List String)
    (out : List (String × JVal))
    (hch : isChineseText s = false)
    (h2 : translateObjectFields provider lang rest log = (.ok out, log1)) :
    translateObjectFields provider lang ((k, .str s) :: rest) log =
      (.ok ((k, .str s) :: out), log1) := by
  simp [translateObjectFields, hch, h2]

theorem tOF_eq_str_nch_err (provider : String → String → Except String String)
    (lang k s : String) (rest : List (String × JVal)) (log log1 : List String)
    (e : String)
    (hch : isChineseText s = false)
    (h2 : translateObjectFields provider lang rest log = (.error e, log1)) :
    translateObjectFields provider lang ((k, .str s) :: rest) log = (.error e, log1) := by
  simp [translateObjectFields, hch, h2]

theorem tOF_eq_other_ok (provider : String → String → Except String String)
    (lang k : String) (v : JVal) (rest : List (String × JVal))
    (log log1 : List String) (out : List (String × JVal))
    (hv : v.isNonStringScalar = true)
    (h2 : translateObjectFields provider lang rest log = (.ok out, log1)) :
    translateObjectFields provider lang ((k, v) :: rest) log =
      (.ok ((k, v) :: out), log1) := by
  cases v with
  | str s => exact absurd hv (by simp [JVal.isNonStringScalar])
  | obj fs => exact absurd hv (by simp [JVal.isNonStringScalar])
  | num n => simp [translateObjectFields, h2]
  | bool b => simp [translateObjectFields, h2]
  | null => simp [translateObjectFields, h2]
  | undef => simp [translateObjectFields, h2]

theorem tOF_eq_other_err (provider : String → String → Except String String)
    (lang k : String) (v : JVal) (rest : List (String × JVal))
    (log log1 : List String) (e : String)
    (hv : v.isNonStringScalar = true)
    (h2 : translateObjectFields provider lang rest log = (.error e, log1)) :
    translateObjectFields provider lang ((k, v) :: rest) log = (.error e, log1) := by
  cases v with
  | str s => exact absurd hv (by simp [JVal.isNonStringScalar])
  | obj fs => exact absurd hv (by simp [JVal.isNonStringScalar])
  | num n => simp [translateObjectFields, h2]
  | bool b => simp [translateObjectFields, h2]
  | null => simp [translateObjectFields, h2]
  | undef => simp [translateObjectFields, h2]

/-- Every text `translateObject` ever sends to the provider contains a
Chinese character, whatever the document, the starting log, and the
behaviour of the provider. -/
theorem tOF_calls_chinese (provider : String → String → Except String String)
    (lang : String) :
    ∀ (doc : List (String × JVal)) (log : List String),
      (∀ t ∈ log, isChineseText t = true) →
      ∀ t ∈ (translateObjectFields provider lang doc log).2, isChineseText t = true
  | [], log => by
    intro hlog t ht
    rw [tOF_eq_nil] at ht
    exact hlog t ht
  | (k, .str s) :: rest, log => by
    intro hlog t ht
    by_cases hch : isChineseText s = true
    · have hlog2 : ∀ t2 ∈ log ++ [s], isChineseText t2 = true := by
        intro t2 ht2
        rcases List.mem_append.mp ht2 with h2 | h2
        · exact hlog t2 h2
        · rw [List.mem_singleton.mp h2]
          exact hch
      cases hp : provider s lang with
      | error e =>
        rw [tOF_eq_str_ch_err provider lang k s rest log e hch hp] at ht
        exact hlog2 t ht
      | ok tr =>
        rcases hrest : translateObjectFields provider lang rest (log ++ [s]) with ⟨res2, log1⟩
        cases res2 with
        | error e =>
          rw [tOF_eq_str_ch_ok_err provider lang k s rest log log1 tr e hch hp hrest] at ht
          exact tOF_calls_chinese provider lang rest (log ++ [s]) hlog2 t (by rw [hrest]; exact ht)
        | ok out =>
          rw [tOF_eq_str_ch_ok_ok provider lang k s rest log log1 tr out hch hp hrest] at ht
          exact tOF_calls_chinese provider lang rest (log ++ [s]) hlog2 t (by rw [hrest]; exact ht)
    · have hch2 : isChineseText s = false := by
        cases h2 : isChineseText s
        · rfl
        · exact absurd h2 hch
      rcases hrest : translateObjectFields provider lang rest log with ⟨res2, log1⟩
      cases res2 with
      | error e =>
        rw [tOF_eq_str_nch_err provider lang k s rest log log1 e hch2 hrest] at ht
        exact tOF_calls_chinese provider lang rest log hlog t (by rw [hrest]; exact ht)
      | ok out =>
        rw [tOF_eq_str_nch_ok provider lang k s rest log log1 out hch2 hrest] at ht
        exact tOF_calls_chinese provider lang rest log hlog t (by rw [hrest]; exact ht)
  | (k, .obj fs) :: rest, log => by
    intro hlog t ht
    rcases hin : translateObjectFields provider lang fs log with ⟨res, log1⟩
    have hlog1 : ∀ t2 ∈ log1, isChineseText t2 = true := fun t2 ht2 =>
      tOF_calls_chinese provider lang fs log hlog t2 (by rw [hin]; exact ht2)
    cases res with
    | error e =>
      rw [tOF_eq_obj_err provider lang k fs rest log log1 e hin] at ht
      exact hlog1 t ht
    | ok inner =>
      rcases hrest : translateObjectFields provider lang rest log1 with ⟨res2, log2⟩
      cases res2 with
      | error e =>
        rw [tOF_eq_obj_ok_err provider lang k fs rest log log1 log2 inner e hin hrest] at ht
        exact tOF_calls_chinese provider lang rest log1 hlog1 t (by rw [hrest]; exact ht)
      | ok out =>
        rw [tOF_eq_obj_ok_ok provider lang k fs rest log log1 log2 inner out hin hrest] at ht
        exact tOF_calls_chinese provider lang rest log1 hlog1 t (by rw [hrest]; exact ht)
  | (k, .num n) :: rest, log => by
    intro hlog t ht
    rcases hrest : translateObjectFields provider lang rest log with ⟨res2, log1⟩
    cases res2 with
    | error e =>
      rw [tOF_eq_other_err provider lang k (.num n) rest log log1 e (by simp [JVal.isNonStringScalar]) hrest] at ht
      exact tOF_calls_chinese provider lang rest log hlog t (by rw [hrest]; exact ht)
    | ok out =>
      rw [tOF_eq_other_ok provider lang k (.num n) rest log log1 out (by simp [JVal.isNonStringScalar]) hrest] at ht
      exact tOF_calls_chinese provider lang rest log hlog t (by rw [hrest]; exact ht)
  | (k, .bool b) :: rest, log => by
    intro hlog t ht
    rcases hrest : translateObjectFields provider lang rest log with ⟨res2, log1⟩
    cases res2 with
    | error e =>
      rw [tOF_eq_other_err provider lang k (.bool b) rest log log1 e (by simp [JVal.isNonStringScalar]) hrest] at ht
      exact tOF_calls_chinese provider lang rest log hlog t (by rw [hrest]; exact ht)
    | ok out =>
      rw [tOF_eq_other_ok provider lang k (.bool b) rest log log1 out (by simp [JVal.isNonStringScalar]) hrest] at ht
      exact tOF_calls_chinese provider lang rest log hlog t (by rw [hrest]; exact ht)
  | (k, .null) :: rest, log => by
    intro hlog t ht
    rcases hrest : translateObjectFields provider lang rest log with ⟨res2, log1⟩
    cases res2 with
    | error e =>
      rw [tOF_eq_other_err provider lang k .null rest log log1 e (by simp [JVal.isNonStringScalar]) hrest] at ht
      exact tOF_calls_chinese provider lang rest log hlog t (by rw [hrest]; exact ht)
    | ok out =>
      rw [tOF_eq_other_ok provider lang k .null rest log log1 out (by simp [JVal.isNonStringScalar]) hrest] at ht
      exact tOF_calls_chinese provider lang rest log hlog t (by rw [hrest]; exact ht)
  | (k, .undef) :: rest, log => by
    intro hlog t ht
    rcases hrest : translateObjectFields provider lang rest log with ⟨res2, log1⟩
    cases res2 with
    | error e =>
      rw [tOF_eq_other_err provider lang k .undef rest log log1 e (by simp [JVal.isNonStringScalar]) hrest] at ht
      exact tOF_calls_chinese provider lang rest log hlog t (by rw [hrest]; exact ht)
    | ok out =>
      rw [tOF_eq_other_ok provider lang k .undef rest log log1 out (by simp [JVal.isNonStringScalar]) hrest] at ht
      exact tOF_calls_chinese provider lang rest log hlog t (by rw [hrest]; exact ht)

/-- A successful `translateObject` run is key-aligned with its input, and
every string leaf without a Chinese character is copied unchanged. -/
theorem tOF_leafwise (provider : String → String → Except String String)
    (lang : String) :
    ∀ (doc : List (String × JVal)) (log log1 : List String) (out : List (String × JVal)),
      translateObjectFields provider lang doc log = (.ok out, log1) →
      LeafwiseR (fun v w => ∀ s, v = .str s → isChineseText s = false → w = v) doc out
  | [], log, log1, out => by
    intro h
    rw [tOF_eq_nil] at h
    cases h
    exact .nil
  | (k, .str s) :: rest, log, log1, out => by
    intro h
    by_cases hch : isChineseText s = true
    · cases hp : provider s lang with
      | error e =>
        rw [tOF_eq_str_ch_err provider lang k s rest log e hch hp] at h
        exact absurd h (by simp)
      | ok tr =>
        rcases hrest : translateObjectFields provider lang rest (log ++ [s]) with ⟨res2, logA⟩
        cases res2 with
        | error e =>
          rw [tOF_eq_str_ch_ok_err provider lang k s rest log logA tr e hch hp hrest] at h
          exact absurd h (by simp)
        | ok out2 =>
          rw [tOF_eq_str_ch_ok_ok provider lang k s rest log logA tr out2 hch hp hrest] at h
          cases h
          exact .leaf k _ _ rest out2 (by simp [JVal.isObj]) (by simp [JVal.isObj])
            (by intro s0 he hch0; cases he; exact absurd hch (by simp [hch0]))
            (tOF_leafwise provider lang rest (log ++ [s]) _ out2 hrest)
    · have hch2 : isChineseText s = false := by
        cases h2 : isChineseText s
        · rfl
        · exact absurd h2 hch
      rcases hrest : translateObjectFields provider lang rest log with ⟨res2, logA⟩
      cases res2 with
      | error e =>
        rw [tOF_eq_str_nch_err provider lang k s rest log logA e hch2 hrest] at h
        exact absurd h (by simp)
      | ok out2 =>
        rw [tOF_eq_str_nch_ok provider lang k s rest log logA out2 hch2 hrest] at h
        cases h
        exact .leaf k _ _ rest out2 (by simp [JVal.isObj]) (by simp [JVal.isObj])
          (fun _ _ _ => rfl)
          (tOF_leafwise provider lang rest log _ out2 hrest)
  | (k, .obj fs) :: rest, log, log1, out => by
    intro h
    rcases hin : translateObjectFields provider lang fs log with ⟨res, logA⟩
    cases res with
    | error e =>
      rw [tOF_eq_obj_err provider lang k fs rest log logA e hin] at h
      exact absurd h (by simp)
    | ok inner =>
      rcases hrest : translateObjectFields provider lang rest logA with ⟨res2, logB⟩
      cases res2 with
      | error e =>
        rw [tOF_eq_obj_ok_err provider lang k fs rest log logA logB inner e hin hrest] at h
        exact absurd h (by simp)
      | ok out2 =>
        rw [tOF_eq_obj_ok_ok provider lang k fs rest log logA logB inner out2 hin hrest] at h
        cases h
        exact .objF k fs inner rest out2
          (tOF_leafwise provider lang fs log _ inner hin)
          (tOF_leafwise provider lang rest logA _ out2 hrest)
  | (k, .num n) :: rest, log, log1, out => by
    intro h
    rcases hrest : translateObjectFields provider lang rest log with ⟨res2, logA⟩
    cases res2 with
    | error e =>
      rw [tOF_eq_other_err provider lang k (.num n) rest log logA e
        (by simp [JVal.isNonStringScalar]) hrest] at h
      exact absurd h (by simp)
    | ok out2 =>
      rw [tOF_eq_other_ok provider lang k (.num n) rest log logA out2
        (by simp [JVal.isNonStringScalar]) hrest] at h
      cases h
      exact .leaf k _ _ rest out2 (by simp [JVal.isObj]) (by simp [JVal.isObj])
        (fun s0 he => absurd he (by simp))
        (tOF_leafwise provider lang rest log _ out2 hrest)
  | (k, .bool b) :: rest, log, log1, out => by
    intro h
    rcases hrest : translateObjectFields provider lang rest log with ⟨res2, logA⟩
    cases res2 with
    | error e =>
      rw [tOF_eq_other_err provider lang k (.bool b) rest log logA e
        (by simp [JVal.isNonStringScalar]) hrest] at h
      exact absurd h (by simp)
    | ok out2 =>
      rw [tOF_eq_other_ok provider lang k (.bool b) rest log logA out2
        (by simp [JVal.isNonStringScalar]) hrest] at h
      cases h
      exact .leaf k _ _ rest out2 (by simp [JVal.isObj]) (by simp [JVal.isObj])
        (fun s0 he => absurd he (by simp))
        (tOF_leafwise provider lang rest log _ out2 hrest)
  | (k, .null) :: rest, log, log1, out => by
    intro h
    rcases hrest : translateObjectFields provider lang rest log with ⟨res2, logA⟩
    cases res2 with
    | error e =>
      rw [tOF_eq_other_err provider lang k .null rest log logA e
        (by simp [JVal.isNonStringScalar]) hrest] at h
      exact absurd h (by simp)
    | ok out2 =>
      rw [tOF_eq_other_ok provider lang k .null rest log logA out2
        (by simp [JVal.isNonStringScalar]) hrest] at h
      cases h
      exact .leaf k _ _ rest out2 (by simp [JVal.isObj]) (by simp [JVal.isObj])
        (fun s0 he => absurd he (by simp))
        (tOF_leafwise provider lang rest log _ out2 hrest)
  | (k, .undef) :: rest, log, log1, out => by
    intro h
    rcases hrest : translateObjectFields provider lang rest log with ⟨res2, logA⟩
    cases res2 with
    | error e =>
      rw [tOF_eq_other_err provider lang k .undef rest log logA e
        (by simp [JVal.isNonStringScalar]) hrest] at h
      exact absurd h (by simp)
    | ok out2 =>
      rw [tOF_eq_other_ok provider lang k .undef rest log logA out2
        (by simp [JVal.isNonStringScalar]) hrest] at h
      cases h
      exact .leaf k _ _ rest out2 (by simp [JVal.isObj]) (by simp [JVal.isObj])
        (fun s0 he => absurd he (by simp))
        (tOF_leafwise provider lang rest log _ out2 hrest)

theorem translateObject_eq_invalid (provider : String → String → Except String String)
    (doc : List (String × JVal)) (lang e : String)
    (h : validateLanguageCode lang = .error e) :
    translateObject provider doc lang = (.error e, []) := by
  simp [translateObject, h]

theorem translateObject_eq_valid (provider : String → String → Except String String)
    (doc : List (String × JVal)) (lang : String)
    (h : validateLanguageCode lang = .ok ()) :
    translateObject provider doc lang = translateObjectFields provider lang doc [] := by
  simp [translateObject, h]

/-- C9: `Translator.translateObject` sends a string leaf to the provider
only when the leaf contains a character in U+4E00 – U+9FA5; every string
leaf without such a character is copied to the output unchanged and never
reaches the provider. -/
theorem translateObject_chinese_gate (provider : String → String → Except String String)
    (doc : List (String × JVal)) (lang : String) :
    (∀ t ∈ (translateObject provider doc lang).2, isChineseText t = true) ∧
    (∀ out, (translateObject provider doc lang).1 = .ok out →
      ∀ (path : List String) (s : String), lookupPath path doc = some (.str s) →
        isChineseText s = false → lookupPath path out = some (.str s)) := by
  cases hv : validateLanguageCode lang with
  | error e =>
    rw [translateObject_eq_invalid provider doc lang e hv]
    constructor
    · intro t ht
      exact absurd ht (by simp)
    · intro out hout
      exact absurd hout (by simp)
  | ok u =>
    cases u
    rw [translateObject_eq_valid provider doc lang hv]
    constructor
    · exact tOF_calls_chinese provider lang doc [] (by intro t ht; exact absurd ht (by simp))
    · intro out hout path s hp hch
      rcases hrun : translateObjectFields provider lang doc [] with ⟨res, log1⟩
      rw [hrun] at hout
      simp only at hout
      cases res with
      | error e => exact absurd hout (by simp)
      | ok out2 =>
        have hout2 : out2 = out := by
          simpa using hout
        subst hout2
        have hlw := tOF_leafwise provider lang doc [] log1 out2 hrun
        obtain ⟨w, hw1, -, hw3⟩ := hlw.lookupPath_of path (.str s) hp (by simp [JVal.isObj])
        rw [hw1, hw3 s rfl hch]

/-- Witness for C9: translating `{"a": "hello", "b": "你好"}` to `en` with a
provider prefixing `T:` sends only `你好` to the provider and copies the
non-Chinese leaf `hello` unchanged. -/
theorem translateObject_chinese_gate_witness :
    lookupPath ["a"] [("a", JVal.str "hello"), ("b", JVal.str ("T:" ++ "你好"))] =
      some (.str "hello") := by
  have hv : validateLanguageCode "en" = .ok () := rfl
  have h0 := tOF_eq_nil (fun t _ => .ok ("T:" ++ t)) "en" (([] : List String) ++ ["你好"])
  have h1 := tOF_eq_str_ch_ok_ok (fun t _ => .ok ("T:" ++ t)) "en" "b" "你好" []
    [] (([] : List String) ++ ["你好"]) ("T:" ++ "你好") [] (by decide) rfl h0
  have h2 := tOF_eq_str_nch_ok (fun t _ => .ok ("T:" ++ t)) "en" "a" "hello"
    [("b", JVal.str "你好")] [] (([] : List String) ++ ["你好"])
    [("b", JVal.str ("T:" ++ "你好"))] (by decide) h1
  have hrun : (translateObject (fun t _ => .ok ("T:" ++ t))
      [("a", JVal.str "hello"), ("b", JVal.str "你好")] "en").1 =
      .ok [("a", JVal.str "hello"), ("b", JVal.str ("T:" ++ "你好"))] := by
    rw [translateObject_eq_valid (fun t _ => .ok ("T:" ++ t)) _ "en" hv, h2]
  exact (translateObject_chinese_gate (fun t _ => .ok ("T:" ++ t))
    [("a", JVal.str "hello"), ("b", JVal.str "你好")] "en").2
    [("a", JVal.str "hello"), ("b", JVal.str ("T:" ++ "你好"))] hrun
    ["a"] "hello" rfl (by decide)

/-- C7: a target language outside the supported set makes
`translateObject` fail immediately with the unsupported-language error and
an empty provider-call log (no leaf task examined, no provider call), and
the CLI loop records that failure for this language alone, proceeding with
the remaining requested languages untouched. -/
theorem unsupported_language_fails_fast (provider : String → String → Except String String)
    (doc : List (String × JVal)) (lang : String) (rest : List String)
    (h : supportedLanguageCodes.contains lang = false) :
    translateObject provider doc lang =
      (.error ("Unsupported language code: " ++ lang), []) ∧
    cliTranslateAll provider doc (lang :: rest) =
      (lang, .error ("Unsupported language code: " ++ lang))
        :: cliTranslateAll provider doc rest := by
  have hv : validateLanguageCode lang =
      .error ("Unsupported language code: " ++ lang) := by
    simp only [validateLanguageCode]
    rw [if_neg]
    simpa using h
  refine ⟨translateObject_eq_invalid provider doc lang _ hv, ?_⟩
  show (lang, (translateObject provider doc lang).1) :: cliTranslateAll provider doc rest = _
  rw [translateObject_eq_invalid provider doc lang _ hv]

/-- Witness for C7: requesting `zh-CN` (not in the supported set) fails
immediately with zero provider calls while `en` still runs. -/
theorem unsupported_language_fails_fast_witness :
    translateObject (fun t _ => .ok ("T:" ++ t)) [("a", JVal.str "你好")] "zh-CN" =
      (.error ("Unsupported language code: " ++ "zh-CN"), []) ∧
    cliTranslateAll (fun t _ => .ok ("T:" ++ t)) [("a", JVal.str "你好")] ["zh-CN", "en"] =
      ("zh-CN", .error ("Unsupported language code: " ++ "zh-CN"))
        :: cliTranslateAll (fun t _ => .ok ("T:" ++ t)) [("a", JVal.str "你好")] ["en"] :=
  unsupported_language_fails_fast (fun t _ => .ok ("T:" ++ t))
    [("a", JVal.str "你好")] "zh-CN" ["en"] rfl

/-- Effect of `cacheTranslation` on a later same-language lookup. -/
theorem getCachedTranslation_cacheTranslation (cache : Cache) (text lang tr t : String) :
    getCachedTranslation (cacheTranslation cache text lang tr) t lang =
      if text = t then (if tr = "" then none else some tr)
      else getCachedTranslation cache t lang := by
  by_cases h : text = t
  · subst h
    simp [getCachedTranslation, cacheTranslation, List.find?]
  · rw [if_neg h]
    simp only [getCachedTranslation, cacheTranslation, List.find?]
    have : (((lang, text, tr).1 == lang && (lang, text, tr).2.1 == t)) = false := by
      simp [h]
    rw [this]

/-- All same-language cache entries agree with the translation function `f`. -/
def cacheFaithful (f : String → String) (lang : String) (cache : Cache) : Prop :=
  ∀ t v, getCachedTranslation cache t lang = some v → v = f t

theorem cacheFaithful_empty (f : String → String) (lang : String) :
    cacheFaithful f lang [] := by
  intro t v hv
  exact absurd hv (by simp [getCachedTranslation, List.find?])

theorem mapDocP6_eq_nil (g : String → String) : mapDocP6 g [] = [] := by
  simp [mapDocP6]

theorem mapDocP6_eq_str (g : String → String) (k s : String)
    (rest : List (String × JVal)) :
    mapDocP6 g ((k, .str s) :: rest) = (k, .str (g s)) :: mapDocP6 g rest := by
  simp [mapDocP6]

theorem mapDocP6_eq_obj (g : String → String) (k : String)
    (fs rest : List (String × JVal)) :
    mapDocP6 g ((k, .obj fs) :: rest) = (k, .obj (mapDocP6 g fs)) :: mapDocP6 g rest := by
  simp [mapDocP6]

theorem mapDocP6_eq_scalar (g : String → String) (k : String) (v : JVal)
    (rest : List (String × JVal)) (hv : v.isNonStringScalar = true) :
    mapDocP6 g ((k, v) :: rest) = (k, .str (jsString v)) :: mapDocP6 g rest := by
  cases v with
  | str s => exact absurd hv (by simp [JVal.isNonStringScalar])
  | obj fs => exact absurd hv (by simp [JVal.isNonStringScalar])
  | num n => simp [mapDocP6]
  | bool b => simp [mapDocP6]
  | null => simp [mapDocP6]
  | undef => simp [mapDocP6]

/-- When every provider attempt for `lang` fails and the cache holds no
`lang` entries, a `part_006` language run replaces every string leaf with
the `[TRANSLATION_FAILED]` marker embedding the original text, stringifies
the scalars, and leaves the cache untouched. -/
theorem tlP6_allFail (provider : String → String → Except String JVal)
    (lang : String)
    (hfail : ∀ t, ∃ msg, attemptOutcome (provider t lang) = .error msg) :
    ∀ (doc : List (String × JVal)) (cache : Cache),
      (∀ t, getCachedTranslation cache t lang = none) →
      translateLanguageP6 provider lang doc cache =
        (mapDocP6 (fun s => "[TRANSLATION_FAILED] " ++ s) doc, cache)
  | [], cache, _ => by
    rw [tlP6_eq_nil, mapDocP6_eq_nil]
  | (k, .str s) :: rest, cache, hmiss => by
    obtain ⟨msg, hm⟩ := hfail s
    rw [tlP6_eq_str_miss_err provider lang k s rest cache msg (hmiss s) hm,
      tlP6_allFail provider lang hfail rest cache hmiss, mapDocP6_eq_str]
  | (k, .obj fs) :: rest, cache, hmiss => by
    rw [tlP6_eq_obj,
      tlP6_allFail provider lang hfail fs cache hmiss,
      tlP6_allFail provider lang hfail rest cache hmiss, mapDocP6_eq_obj]
  | (k, .num n) :: rest, cache, hmiss => by
    rw [tlP6_eq_scalar provider lang k (.num n) rest cache (by simp [JVal.isNonStringScalar]),
      tlP6_allFail provider lang hfail rest cache hmiss,
      mapDocP6_eq_scalar _ _ _ _ (by simp [JVal.isNonStringScalar])]
  | (k, .bool b) :: rest, cache, hmiss => by
    rw [tlP6_eq_scalar provider lang k (.bool b) rest cache (by simp [JVal.isNonStringScalar]),
      tlP6_allFail provider lang hfail rest cache hmiss,
      mapDocP6_eq_scalar _ _ _ _ (by simp [JVal.isNonStringScalar])]
  | (k, .null) :: rest, cache, hmiss => by
    rw [tlP6_eq_scalar provider lang k .null rest cache (by simp [JVal.isNonStringScalar]),
      tlP6_allFail provider lang hfail rest cache hmiss,
      mapDocP6_eq_scalar _ _ _ _ (by simp [JVal.isNonStringScalar])]
  | (k, .undef) :: rest, cache, hmiss => by
    rw [tlP6_eq_scalar provider lang k .undef rest cache (by simp [JVal.isNonStringScalar]),
      tlP6_allFail provider lang hfail rest cache hmiss,
      mapDocP6_eq_scalar _ _ _ _ (by simp [JVal.isNonStringScalar])]

/-- When every provider attempt for `lang` succeeds deterministically with
the non-empty translation `f t`, a `part_006` language run computes exactly
the per-leaf map `mapDocP6 f` — whether a leaf is resolved by the provider
or by a cache hit — and keeps the cache faithful to `f`. -/
theorem tlP6_success (provider : String → String → Except String JVal)
    (lang : String) (f : String → String)
    (hp : ∀ t, attemptOutcome (provider t lang) = .ok (f t))
    (hf : ∀ t, f t ≠ "") :
    ∀ (doc : List (String × JVal)) (cache : Cache),
      cacheFaithful f lang cache →
      (translateLanguageP6 provider lang doc cache).1 = mapDocP6 f doc ∧
      cacheFaithful f lang (translateLanguageP6 provider lang doc cache).2
  | [], cache, hcons => by
    rw [tlP6_eq_nil, mapDocP6_eq_nil]
    exact ⟨rfl, hcons⟩
  | (k, .str s) :: rest, cache, hcons => by
    cases hc : getCachedTranslation cache s lang with
    | some cached =>
      have hcf : cached = f s := hcons s cached hc
      rw [tlP6_eq_str_hit provider lang k s rest cache cached hc]
      obtain ⟨h1, h2⟩ := tlP6_success provider lang f hp hf rest cache hcons
      refine ⟨?_, h2⟩
      rw [mapDocP6_eq_str, h1, hcf]
    | none =>
      rw [tlP6_eq_str_miss_ok provider lang k s rest cache (f s) hc (hp s)]
      have hcons2 : cacheFaithful f lang (cacheTranslation cache s lang (f s)) := by
        intro t v hv
        rw [getCachedTranslation_cacheTranslation] at hv
        by_cases hst : s = t
        · subst hst
          rw [if_pos rfl, if_neg (hf s)] at hv
          cases hv
          rfl
        · rw [if_neg hst] at hv
          exact hcons t v hv
      obtain ⟨h1, h2⟩ := tlP6_success provider lang f hp hf rest _ hcons2
      refine ⟨?_, h2⟩
      rw [mapDocP6_eq_str, h1]
  | (k, .obj fs) :: rest, cache, hcons => by
    rw [tlP6_eq_obj]
    obtain ⟨h1, h2⟩ := tlP6_success provider lang f hp hf fs cache hcons
    obtain ⟨h3, h4⟩ := tlP6_success provider lang f hp hf rest _ h2
    refine ⟨?_, h4⟩
    rw [mapDocP6_eq_obj, h1, h3]
  | (k, .num n) :: rest, cache, hcons => by
    rw [tlP6_eq_scalar provider lang k (.num n) rest cache (by simp [JVal.isNonStringScalar])]
    obtain ⟨h1, h2⟩ := tlP6_success provider lang f hp hf rest cache hcons
    refine ⟨?_, h2⟩
    rw [mapDocP6_eq_scalar _ _ _ _ (by simp [JVal.isNonStringScalar]), h1]
  | (k, .bool b) :: rest, cache, hcons => by
    rw [tlP6_eq_scalar provider lang k (.bool b) rest cache (by simp [JVal.isNonStringScalar])]
    obtain ⟨h1, h2⟩ := tlP6_success provider lang f hp hf rest cache hcons
    refine ⟨?_, h2⟩
    rw [mapDocP6_eq_scalar _ _ _ _ (by simp [JVal.isNonStringScalar]), h1]
  | (k, .null) :: rest, cache, hcons => by
    rw [tlP6_eq_scalar provider lang k .null rest cache (by simp [JVal.isNonStringScalar])]
    obtain ⟨h1, h2⟩ := tlP6_success provider lang f hp hf rest cache hcons
    refine ⟨?_, h2⟩
    rw [mapDocP6_eq_scalar _ _ _ _ (by simp [JVal.isNonStringScalar]), h1]
  | (k, .undef) :: rest, cache, hcons => by
    rw [tlP6_eq_scalar provider lang k .undef rest cache (by simp [JVal.isNonStringScalar])]
    obtain ⟨h1, h2⟩ := tlP6_success provider lang f hp hf rest cache hcons
    refine ⟨?_, h2⟩
    rw [mapDocP6_eq_scalar _ _ _ _ (by simp [JVal.isNonStringScalar]), h1]

/-- The map `mapDocP6 g` is key-aligned with its input and applies `g` to
every string leaf. -/
theorem mapDocP6_leafwise (g : String → String) :
    ∀ doc : List (String × JVal),
      LeafwiseR (fun v w => ∀ s, v = .str s → w = .str (g s)) doc (mapDocP6 g doc)
  | [] => by
    rw [mapDocP6_eq_nil]
    exact .nil
  | (k, .str s) :: rest => by
    rw [mapDocP6_eq_str]
    exact .leaf k _ _ rest _ (by simp [JVal.isObj]) (by simp [JVal.isObj])
      (by intro s0 he; cases he; rfl) (mapDocP6_leafwise g rest)
  | (k, .obj fs) :: rest => by
    rw [mapDocP6_eq_obj]
    exact .objF k fs _ rest _ (mapDocP6_leafwise g fs) (mapDocP6_leafwise g rest)
  | (k, .num n) :: rest => by
    rw [mapDocP6_eq_scalar _ _ _ _ (by simp [JVal.isNonStringScalar])]
    exact .leaf k _ _ rest _ (by simp [JVal.isObj]) (by simp [JVal.isObj])
      (fun s0 he => absurd he (by simp)) (mapDocP6_leafwise g rest)
  | (k, .bool b) :: rest => by
    rw [mapDocP6_eq_scalar _ _ _ _ (by simp [JVal.isNonStringScalar])]
    exact .leaf k _ _ rest _ (by simp [JVal.isObj]) (by simp [JVal.isObj])
      (fun s0 he => absurd he (by simp)) (mapDocP6_leafwise g rest)
  | (k, .null) :: rest => by
    rw [mapDocP6_eq_scalar _ _ _ _ (by simp [JVal.isNonStringScalar])]
    exact .leaf k _ _ rest _ (by simp [JVal.isObj]) (by simp [JVal.isObj])
      (fun s0 he => absurd he (by simp)) (mapDocP6_leafwise g rest)
  | (k, .undef) :: rest => by
    rw [mapDocP6_eq_scalar _ _ _ _ (by simp [JVal.isNonStringScalar])]
    exact .leaf k _ _ rest _ (by simp [JVal.isObj]) (by simp [JVal.isObj])
      (fun s0 he => absurd he (by simp)) (mapDocP6_leafwise g rest)

theorem processLangsP6_eq_nil (provider : String → String → Except String JVal)
    (doc : List (String × JVal)) (outputDir : String) (cache : Cache) :
    processLangsP6 provider doc outputDir [] cache = [] := rfl

theorem processLangsP6_eq_cons (provider : String → String → Except String JVal)
    (doc : List (String × JVal)) (outputDir lang : String)
    (rest : List String) (cache : Cache) :
    processLangsP6 provider doc outputDir (lang :: rest) cache =
      (lang, saveTranslationPath outputDir lang,
        (translateLanguageP6 provider lang doc cache).1)
        :: processLangsP6 provider doc outputDir rest
            (translateLanguageP6 provider lang doc cache).2 := rfl

/-- Key-level model of one `part_006` worker pool over a FLAT field list
with an empty cache, tracking the order in which `result[key]` is
assigned.  A string task (a cache miss on the empty cache) suspends at its
provider call when started and assigns its key only when that call
resolves; a non-string non-object task runs its async body synchronously
when started, assigning its key immediately, and holds its pool slot
(`locals`) until its already-resolved promise is collected.  `assigned`
is the result-map key insertion order. -/
structure FlatPool where
  queue : List (String × JVal)
  pendingKeys : List String
  locals : Nat
  assigned : List String

/-- One step of the flat pool with ceiling `W`: tasks start from the head
of the queue only while `pendingKeys.length + locals < W`; any in-flight
provider call may resolve, assigning its key; a finished scalar task may
be collected, releasing its slot. -/
inductive FlatStep (W : Nat) : FlatPool → FlatPool → Prop where
  | startStr (k s : String) (q : List (String × JVal)) (pend : List String)
      (loc : Nat) (asg : List String) :
      pend.length + loc < W →
      FlatStep W ⟨(k, .str s) :: q, pend, loc, asg⟩ ⟨q, pend ++ [k], loc, asg⟩
  | startScalar (k : String) (v : JVal) (q : List (String × JVal))
      (pend : List String) (loc : Nat) (asg : List String) :
      v.isNonStringScalar = true →
      pend.length + loc < W →
      FlatStep W ⟨(k, v) :: q, pend, loc, asg⟩ ⟨q, pend, loc + 1, asg ++ [k]⟩
  | resolveCall (k : String) (q : List (String × JVal)) (p1 p2 : List String)
      (loc : Nat) (asg : List String) :
      FlatStep W ⟨q, p1 ++ k :: p2, loc, asg⟩ ⟨q, p1 ++ p2, loc, asg ++ [k]⟩
  | collectScalar (q : List (String × JVal)) (pend : List String)
      (loc : Nat) (asg : List String) :
      FlatStep W ⟨q, pend, loc + 1, asg⟩ ⟨q, pend, loc, asg⟩

/-- Reachability under the flat-pool steps. -/
def FlatReach (W : Nat) : FlatPool → FlatPool → Prop :=
  Relation.ReflTransGen (FlatStep W)

/-- C1 counterexample, two violations.  First, a run of the worker-pool
`translateLanguage` over `{"a": 42}` emits the STRING `"42"` for the
numeric leaf — the non-string scalar is not reproduced unchanged.  Second,
key insertion order is not preserved: over `{"a": "你好", "b": 42}` with
`maxWorkers = 2`, the pool can start the string task `a` (which suspends
at its provider call), synchronously assign the scalar key `b`, and only
then resolve `a` — reaching a completed run whose result keys were
inserted in the order `b, a`, not the input order `a, b`. -/
theorem structure_preservation_counterexample :
    ((translateLanguageP6 (fun _ _ => .ok (.str "X")) "en"
        [("a", JVal.num 42)] []).1 = [("a", JVal.str "42")] ∧
     [("a", JVal.str "42")] ≠ [("a", JVal.num 42)]) ∧
    (FlatReach 2 ⟨[("a", JVal.str "你好"), ("b", JVal.num 42)], [], 0, []⟩
        ⟨[], [], 0, ["b", "a"]⟩ ∧
     (["b", "a"] : List String) ≠
       [("a", JVal.str "你好"), ("b", JVal.num 42)].map Prod.fst) := by
  refine ⟨⟨?_, ?_⟩, ⟨?_, ?_⟩⟩
  · rw [tlP6_eq_scalar (fun _ _ => .ok (.str "X")) "en" "a" (.num 42) [] []
      (by simp [JVal.isNonStringScalar]), tlP6_eq_nil]
    rfl
  · intro h
    simp at h
  · have h1 : FlatStep 2 ⟨[("a", JVal.str "你好"), ("b", JVal.num 42)], [], 0, []⟩
        ⟨[("b", JVal.num 42)], ["a"], 0, []⟩ :=
      FlatStep.startStr "a" "你好" [("b", JVal.num 42)] [] 0 [] (by simp)
    have h2 : FlatStep 2 ⟨[("b", JVal.num 42)], ["a"], 0, []⟩
        ⟨[], ["a"], 1, ["b"]⟩ :=
      FlatStep.startScalar "b" (JVal.num 42) [] ["a"] 0 []
        (by simp [JVal.isNonStringScalar]) (by simp)
    have h3 : FlatStep 2 ⟨[], ["a"], 1, ["b"]⟩ ⟨[], [], 1, ["b", "a"]⟩ :=
      FlatStep.resolveCall "a" [] [] [] 1 ["b"]
    have h4 : FlatStep 2 ⟨[], [], 1, ["b", "a"]⟩ ⟨[], [], 0, ["b", "a"]⟩ :=
      FlatStep.collectScalar [] [] 0 ["b", "a"]
    exact .head h1 (.head h2 (.head h3 (.head h4 .refl)))
  · intro h
    simp at h

/-- C1 (amended): for every provider, language, cache and document, a
worker-pool language run yields a document carrying the same key
MULTISET as the input at the top level and, recursively, at every nested
object — but not necessarily in the input insertion order, since the real
pool inserts each key when its task completes; every leaf of the output
is a string: a string leaf carries the translation (or cache hit or
failure marker), while every non-string scalar leaf is replaced by its
JavaScript string form `String(value)` rather than being reproduced
unchanged.  (Stated via the queue-order sequentialization, from which
only these order-insensitive consequences are drawn.) -/
theorem structure_preservation_amended (provider : String → String → Except String JVal)
    (lang : String) (doc : List (String × JVal)) (cache : Cache) :
    ((translateLanguageP6 provider lang doc cache).1.map Prod.fst).Perm
      (doc.map Prod.fst) ∧
    (∀ (path : List String) (fs : List (String × JVal)),
      lookupPath path doc = some (.obj fs) →
      ∃ gs, lookupPath path (translateLanguageP6 provider lang doc cache).1 =
        some (.obj gs) ∧ (gs.map Prod.fst).Perm (fs.map Prod.fst)) ∧
    (∀ (path : List String) (v : JVal), lookupPath path doc = some v →
      v.isNonStringScalar = true →
      lookupPath path (translateLanguageP6 provider lang doc cache).1 =
        some (.str (jsString v))) ∧
    (∀ (path : List String) (v : JVal), lookupPath path doc = some v →
      v.isObj = false →
      ∃ u, lookupPath path (translateLanguageP6 provider lang doc cache).1 =
        some (.str u)) := by
  have hlw := tlP6_leafwise provider lang doc cache
  refine ⟨?_, ?_, ?_, ?_⟩
  · rw [← hlw.keys_eq]
  · intro path fs hp
    obtain ⟨gs, hg1, hg2⟩ := hlw.lookupPath_obj_of path fs hp
    exact ⟨gs, hg1, by rw [← hg2.keys_eq]⟩
  · intro path v hp hv
    have hobj : v.isObj = false := by
      cases v with
      | str s => exact absurd hv (by simp [JVal.isNonStringScalar])
      | obj fs => exact absurd hv (by simp [JVal.isNonStringScalar])
      | num n => simp [JVal.isObj]
      | bool b => simp [JVal.isObj]
      | null => simp [JVal.isObj]
      | undef => simp [JVal.isObj]
    obtain ⟨w, hw1, -, hw3, -⟩ := hlw.lookupPath_of path v hp hobj
    rw [hw1, hw3 hv]
  · intro path v hp hobj
    obtain ⟨w, hw1, -, -, u, hu⟩ := hlw.lookupPath_of path v hp hobj
    exact ⟨u, by rw [hw1, hu]⟩

/-- Witness for the amended C1 at `{"a": 42, "b": {"c": true}}`: the key
multiset survives at both levels and the scalar leaves are stringified. -/
theorem structure_preservation_amended_witness :
    ((translateLanguageP6 (fun _ _ => .ok (.str "X")) "en"
        [("a", JVal.num 42), ("b", JVal.obj [("c", JVal.bool true)])] []).1.map
      Prod.fst).Perm ["a", "b"] ∧
    lookupPath ["b", "c"]
      (translateLanguageP6 (fun _ _ => .ok (.str "X")) "en"
        [("a", JVal.num 42), ("b", JVal.obj [("c", JVal.bool true)])] []).1 =
      some (.str "true") := by
  constructor
  · exact (structure_preservation_amended (fun _ _ => .ok (.str "X")) "en"
      [("a", JVal.num 42), ("b", JVal.obj [("c", JVal.bool true)])] []).1
  · exact (structure_preservation_amended (fun _ _ => .ok (.str "X")) "en"
      [("a", JVal.num 42), ("b", JVal.obj [("c", JVal.bool true)])] []).2.2.1
      ["b", "c"] (JVal.bool true) rfl rfl

/-- C4: with a provider that always fails for `ja` and always succeeds for
`en`, one `processTranslationsParallel` invocation completes for both
languages without any error escaping: the `en` artifact is the fully
translated document, and the `ja` artifact keeps the whole key structure
with every string leaf replaced by the `[TRANSLATION_FAILED]` marker
embedding the original text. -/
theorem failure_containment_per_language (provider : String → String → Except String JVal)
    (doc : List (String × JVal)) (outputDir : String) (f : String → String)
    (hja : ∀ t, ∃ msg, attemptOutcome (provider t "ja") = .error msg)
    (hen : ∀ t, attemptOutcome (provider t "en") = .ok (f t))
    (hf : ∀ t, f t ≠ "") :
    processTranslationsParallelP6 provider doc outputDir ["ja", "en"] =
      [("ja", saveTranslationPath outputDir "ja",
         mapDocP6 (fun s => "[TRANSLATION_FAILED] " ++ s) doc),
       ("en", saveTranslationPath outputDir "en", mapDocP6 f doc)] ∧
    sameStructure doc (mapDocP6 (fun s => "[TRANSLATION_FAILED] " ++ s) doc) = true ∧
    (∀ (path : List String) (s : String), lookupPath path doc = some (.str s) →
      lookupPath path (mapDocP6 (fun s2 => "[TRANSLATION_FAILED] " ++ s2) doc) =
        some (.str ("[TRANSLATION_FAILED] " ++ s)) ∧
      lookupPath path (mapDocP6 f doc) = some (.str (f s))) := by
  have hja_run := tlP6_allFail provider "ja" hja doc []
    (fun t => by simp [getCachedTranslation, List.find?])
  have h1 : (translateLanguageP6 provider "ja" doc []).1 =
      mapDocP6 (fun s => "[TRANSLATION_FAILED] " ++ s) doc := by rw [hja_run]
  have h2 : (translateLanguageP6 provider "ja" doc []).2 = [] := by rw [hja_run]
  have hen_run := tlP6_success provider "en" f hen hf doc [] (cacheFaithful_empty f "en")
  refine ⟨?_, ?_, ?_⟩
  · unfold processTranslationsParallelP6
    rw [show (["ja", "en"].map normalizeLanguageCode) = ["ja", "en"] by decide]
    rw [processLangsP6_eq_cons, processLangsP6_eq_cons, processLangsP6_eq_nil,
      h1, h2, hen_run.1]
  · exact (mapDocP6_leafwise (fun s => "[TRANSLATION_FAILED] " ++ s) doc).sameStructure_of
  · intro path s hp
    constructor
    · obtain ⟨w, hw1, -, hw3⟩ :=
        (mapDocP6_leafwise (fun s2 => "[TRANSLATION_FAILED] " ++ s2) doc).lookupPath_of
          path (.str s) hp (by simp [JVal.isObj])
      rw [hw1, hw3 s rfl]
    · obtain ⟨w, hw1, -, hw3⟩ :=
        (mapDocP6_leafwise f doc).lookupPath_of path (.str s) hp (by simp [JVal.isObj])
      rw [hw1, hw3 s rfl]

/-- Witness for C4: document `{"a": "hi"}`, a provider failing on `ja` and
returning `X` on `en`: the invocation returns both artifacts, `ja` fully
marked, `en` fully translated. -/
theorem failure_containment_per_language_witness :
    processTranslationsParallelP6
      (fun _ lang => if lang == "en" then .ok (.str "X") else .error "down")
      [("a", JVal.str "hi")] "out" ["ja", "en"] =
      [("ja", "out/ja.json", [("a", JVal.str ("[TRANSLATION_FAILED] " ++ "hi"))]),
       ("en", "out/en.json", [("a", JVal.str "X")])] := by
  have h := (failure_containment_per_language
    (fun _ lang => if lang == "en" then .ok (.str "X") else .error "down")
    [("a", JVal.str "hi")] "out" (fun _ => "X")
    (fun t => ⟨"down", rfl⟩) (fun t => rfl) (fun t => by simp)).1
  rw [h, mapDocP6_eq_str, mapDocP6_eq_nil, mapDocP6_eq_str, mapDocP6_eq_nil]
  rfl

/-- The results map and the artifact paths of a `part_006` driver run are
keyed by exactly the language codes handed to the per-language loop. -/
theorem processLangsP6_keys (provider : String → String → Except String JVal)
    (doc : List (String × JVal)) (dir : String) :
    ∀ (langs : List String) (cache : Cache),
      (processLangsP6 provider doc dir langs cache).map (fun r => r.1) = langs ∧
      (processLangsP6 provider doc dir langs cache).map (fun r => r.2.1) =
        langs.map (fun l => saveTranslationPath dir l)
  | [], cache => by
    rw [processLangsP6_eq_nil]
    exact ⟨rfl, rfl⟩
  | lang :: rest, cache => by
    rw [processLangsP6_eq_cons]
    obtain ⟨h1, h2⟩ := processLangsP6_keys provider doc dir rest
      (translateLanguageP6 provider lang doc cache).2
    exact ⟨by simp [h1], by simp [h2]⟩

/-- C6 counterexample: requesting `kr` produces a results map keyed by the
canonical code `ko` and the artifact `out/ko.json` — the output artifact is
NOT keyed by the originally requested code. -/
theorem alias_artifact_key_counterexample :
    (processTranslationsParallelP6 (fun _ _ => .ok (.str "X"))
        [("a", JVal.str "hi")] "out" ["kr"]).map (fun r => r.1) = ["ko"] ∧
    (processTranslationsParallelP6 (fun _ _ => .ok (.str "X"))
        [("a", JVal.str "hi")] "out" ["kr"]).map (fun r => r.2.1) = ["out/ko.json"] ∧
    "ko" ≠ "kr" := by
  have hmap : ["kr"].map normalizeLanguageCode = ["ko"] := by decide
  unfold processTranslationsParallelP6
  rw [hmap, processLangsP6_eq_cons, processLangsP6_eq_nil]
  exact ⟨rfl, rfl, by decide⟩

/-- C6 (amended): alias normalization maps `kr → ko`, `jp → ja`,
`cn → zh-CN`, `tw → zh-TW` case-insensitively and leaves every other code
unchanged; translation work is dispatched per normalized code, and both the
results-map key and the output file name are ALSO keyed by the canonical
(normalized) code, not by the originally requested code. -/
theorem alias_normalization_amended (code : String)
    (provider : String → String → Except String JVal)
    (doc : List (String × JVal)) (dir : String) (langs : List String)
    (h : strToLower code ∉ ["kr", "cn", "tw", "jp"]) :
    normalizeLanguageCode "kr" = "ko" ∧ normalizeLanguageCode "KR" = "ko" ∧
    normalizeLanguageCode "jp" = "ja" ∧ normalizeLanguageCode "JP" = "ja" ∧
    normalizeLanguageCode "cn" = "zh-CN" ∧ normalizeLanguageCode "CN" = "zh-CN" ∧
    normalizeLanguageCode "tw" = "zh-TW" ∧ normalizeLanguageCode "TW" = "zh-TW" ∧
    normalizeLanguageCode code = code ∧
    (processTranslationsParallelP6 provider doc dir langs).map (fun r => r.1) =
      langs.map normalizeLanguageCode ∧
    (processTranslationsParallelP6 provider doc dir langs).map (fun r => r.2.1) =
      (langs.map normalizeLanguageCode).map (fun l => saveTranslationPath dir l) := by
  have hother : normalizeLanguageCode code = code := by
    have hnone : LANGUAGE_CODE_ALIASES.find? (fun kv => kv.1 == strToLower code) = none := by
      rw [List.find?_eq_none]
      intro kv hkv
      simp only [List.mem_cons, not_or] at h
      obtain ⟨h1, h2, h3, h4, -⟩ := h
      fin_cases hkv
      · simp [Ne.symm h1]
      · simp [Ne.symm h2]
      · simp [Ne.symm h3]
      · simp [Ne.symm h4]
    simp [normalizeLanguageCode, hnone]
  refine ⟨by decide, by decide, by decide, by decide, by decide, by decide,
    by decide, by decide, hother, ?_, ?_⟩
  · exact (processLangsP6_keys provider doc dir (langs.map normalizeLanguageCode) []).1
  · exact (processLangsP6_keys provider doc dir (langs.map normalizeLanguageCode) []).2

/-- Witness for the amended C6: `KR` normalizes to `ko`, `en` is untouched,
and requesting `kr` keys the results map by the canonical code. -/
theorem alias_normalization_amended_witness :
    normalizeLanguageCode "KR" = "ko" ∧ normalizeLanguageCode "en" = "en" ∧
    (processTranslationsParallelP6 (fun _ _ => .ok (.str "X"))
        [("a", JVal.str "hi")] "out" ["kr"]).map (fun r => r.1) =
      ["kr"].map normalizeLanguageCode := by
  obtain ⟨-, hKR, -, -, -, -, -, -, hen, hkeys, -⟩ :=
    alias_normalization_amended "en" (fun _ _ => .ok (.str "X"))
      [("a", JVal.str "hi")] "out" ["kr"] (by decide)
  exact ⟨hKR, hen, hkeys⟩

/-- Number of provider invocations recorded for (text, lang) in a call log. -/
def callsFor (text lang : String) (log : List (String × String)) : Nat :=
  (log.filter (fun e => e.1 == text && e.2 == lang)).length

theorem callsFor_append (text lang : String) (l1 l2 : List (String × String)) :
    callsFor text lang (l1 ++ l2) = callsFor text lang l1 + callsFor text lang l2 := by
  simp [callsFor, List.filter_append]

theorem callsFor_singleton (s t lang : String) :
    callsFor s lang [(t, lang)] = if s = t then 1 else 0 := by
  by_cases h : s = t
  · subst h
    simp [callsFor]
  · rw [if_neg h]
    simp [callsFor, Ne.symm h]

theorem occursText_eq_nil (s : String) : occursText s [] = false := by
  simp [occursText]

theorem occursText_eq_str (s k t : String) (rest : List (String × JVal)) :
    occursText s ((k, .str t) :: rest) = (s == t || occursText s rest) := by
  simp [occursText]

theorem occursText_eq_obj (s k : String) (fs rest : List (String × JVal)) :
    occursText s ((k, .obj fs) :: rest) = (occursText s fs || occursText s rest) := by
  simp [occursText]

theorem occursText_eq_scalar (s k : String) (v : JVal) (rest : List (String × JVal))
    (hv : v.isNonStringScalar = true) :
    occursText s ((k, v) :: rest) = occursText s rest := by
  cases v with
  | str t => exact absurd hv (by simp [JVal.isNonStringScalar])
  | obj fs => exact absurd hv (by simp [JVal.isNonStringScalar])
  | num n => simp [occursText]
  | bool b => simp [occursText]
  | null => simp [occursText]
  | undef => simp [occursText]

/-- Under a deterministic provider that succeeds on the first attempt with
the non-empty translation `f t`, a cached sequential language run starting
from an `f`-faithful cache succeeds, its final cache holds `f t` exactly
for the source texts that occur in the document (plus whatever was cached
before), and the provider is invoked for text `s` exactly once if `s`
occurs in the document and was not cached yet, and never otherwise. -/
theorem tlV2_cache_dedup (provider : String → String → Nat → Except String JVal)
    (lang : String) (opts : TOptions) (f : String → String)
    (hMR : 1 ≤ opts.maxRetries)
    (hp : ∀ t, attemptOutcome (provider t lang 1) = .ok (f t))
    (hf : ∀ t, f t ≠ "") :
    ∀ (doc : List (String × JVal)) (st : PState),
      cacheFaithful f lang st.cache →
      ∃ out st1,
        translateLanguageV2 provider lang opts doc st = (.ok out, st1) ∧
        cacheFaithful f lang st1.cache ∧
        (∀ t, getCachedTranslation st1.cache t lang =
          (if occursText t doc = true then some (f t)
           else getCachedTranslation st.cache t lang)) ∧
        (∀ s, callsFor s lang st1.callLog =
          callsFor s lang st.callLog +
            (if occursText s doc = true ∧ getCachedTranslation st.cache s lang = none
             then 1 else 0))
  | [], st, hfaith => by
    refine ⟨[], st, tlV2_eq_nil provider lang opts st, hfaith, ?_, ?_⟩
    · intro t
      rw [occursText_eq_nil]
      simp
    · intro s
      rw [occursText_eq_nil]
      simp
  | (k, .str s) :: rest, st, hfaith => by
    cases hc : getCachedTranslation st.cache s lang with
    | some cached =>
      have hcf : cached = f s := hfaith s cached hc
      have htx := translateTextV2_eq_hit provider s lang opts st cached hc
      obtain ⟨out2, st1, hrest, hfaith1, hcache1, hcalls1⟩ :=
        tlV2_cache_dedup provider lang opts f hMR hp hf rest st hfaith
      refine ⟨(k, .str cached) :: out2, st1,
        tlV2_eq_str_ok_ok provider lang opts k s rest st st st1 cached out2 htx hrest,
        hfaith1, ?_, ?_⟩
      · intro t
        rw [occursText_eq_str, hcache1 t]
        by_cases h1 : occursText t rest = true
        · rw [if_pos h1, if_pos (by rw [h1]; simp)]
        · rw [if_neg h1]
          by_cases h2 : t = s
          · subst h2
            rw [if_pos (by simp)]
            rw [hc, hcf]
          · rw [if_neg ?_]
            simp only [Bool.or_eq_true, beq_iff_eq]
            rintro (h3 | h3)
            · exact h2 h3
            · exact h1 h3
      · intro s0
        rw [occursText_eq_str, hcalls1 s0]
        by_cases h2 : s0 = s
        · subst h2
          rw [if_neg (by rw [hc]; rintro ⟨-, h3⟩; exact Option.noConfusion h3),
            if_neg (by rw [hc]; rintro ⟨-, h3⟩; exact Option.noConfusion h3)]
        · have hiff : ((s0 == s || occursText s0 rest) = true ∧
              getCachedTranslation st.cache s0 lang = none) ↔
              (occursText s0 rest = true ∧
               getCachedTranslation st.cache s0 lang = none) := by
            constructor
            · rintro ⟨h3, h4⟩
              simp only [Bool.or_eq_true, beq_iff_eq] at h3
              rcases h3 with h3 | h3
              · exact absurd h3 h2
              · exact ⟨h3, h4⟩
            · rintro ⟨h3, h4⟩
              exact ⟨by rw [h3]; simp, h4⟩
          rw [if_congr hiff rfl rfl]
    | none =>
      have hTW : translateWithRetry (fun a => provider s lang a)
          opts.maxRetries opts.retryDelay opts.retryMultiplier =
          ⟨[], 1, .ok (f s)⟩ := by
        obtain ⟨r0, hr0⟩ : ∃ r0, opts.maxRetries = r0 + 1 :=
          ⟨opts.maxRetries - 1, by omega⟩
        unfold translateWithRetry
        rw [hr0]
        exact retryLoop_eq_ok _ 1 r0 _ _ _ (hp s)
      have htx := translateTextV2_eq_miss_ok provider s lang opts st (f s) hc
        (by rw [hTW])
      rw [hTW] at htx
      have hstA : (⟨cacheTranslation st.cache s lang (f s),
          st.callLog ++ List.replicate (1 : Nat) (s, lang)⟩ : PState) =
          ⟨cacheTranslation st.cache s lang (f s), st.callLog ++ [(s, lang)]⟩ := by
        rfl
      rw [hstA] at htx
      have hfaithA : cacheFaithful f lang (cacheTranslation st.cache s lang (f s)) := by
        intro t v hv
        rw [getCachedTranslation_cacheTranslation] at hv
        by_cases hst : s = t
        · subst hst
          rw [if_pos rfl, if_neg (hf s)] at hv
          cases hv
          rfl
        · rw [if_neg hst] at hv
          exact hfaith t v hv
      obtain ⟨out2, st1, hrest, hfaith1, hcache1, hcalls1⟩ :=
        tlV2_cache_dedup provider lang opts f hMR hp hf rest
          ⟨cacheTranslation st.cache s lang (f s), st.callLog ++ [(s, lang)]⟩ hfaithA
      refine ⟨(k, .str (f s)) :: out2, st1,
        tlV2_eq_str_ok_ok provider lang opts k s rest st _ st1 (f s) out2 htx hrest,
        hfaith1, ?_, ?_⟩
      · intro t
        rw [occursText_eq_str, hcache1 t]
        by_cases h1 : occursText t rest = true
        · rw [if_pos h1, if_pos (by rw [h1]; simp)]
        · rw [if_neg h1]
          simp only []
          rw [getCachedTranslation_cacheTranslation]
          by_cases h2 : s = t
          · subst h2
            rw [if_pos rfl, if_neg (hf s), if_pos (by simp)]
          · rw [if_neg h2, if_neg ?_]
            simp only [Bool.or_eq_true, beq_iff_eq]
            rintro (h3 | h3)
            · exact h2 h3.symm
            · exact h1 h3
      · intro s0
        rw [occursText_eq_str, hcalls1 s0]
        simp only []
        rw [callsFor_append, callsFor_singleton]
        by_cases h2 : s0 = s
        · subst h2
          have hA : getCachedTranslation (cacheTranslation st.cache s0 lang (f s0))
              s0 lang = some (f s0) := by
            rw [getCachedTranslation_cacheTranslation, if_pos rfl, if_neg (hf s0)]
          have hifR : (if occursText s0 rest = true ∧
              getCachedTranslation (cacheTranslation st.cache s0 lang (f s0)) s0 lang = none
              then 1 else 0) = 0 := by
            rw [if_neg]
            rintro ⟨-, h3⟩
            rw [hA] at h3
            exact Option.noConfusion h3
          rw [hifR, if_pos rfl, if_pos ⟨by simp, hc⟩]
        · have hA : getCachedTranslation (cacheTranslation st.cache s lang (f s))
              s0 lang = getCachedTranslation st.cache s0 lang := by
            rw [getCachedTranslation_cacheTranslation, if_neg (fun h3 => h2 h3.symm)]
          rw [if_neg h2, hA]
          have hiff : ((s0 == s || occursText s0 rest) = true ∧
              getCachedTranslation st.cache s0 lang = none) ↔
              (occursText s0 rest = true ∧
               getCachedTranslation st.cache s0 lang = none) := by
            constructor
            · rintro ⟨h3, h4⟩
              simp only [Bool.or_eq_true, beq_iff_eq] at h3
              rcases h3 with h3 | h3
              · exact absurd h3 h2
              · exact ⟨h3, h4⟩
            · rintro ⟨h3, h4⟩
              exact ⟨by rw [h3]; simp, h4⟩
          rw [if_congr hiff rfl rfl]
          omega
  | (k, .obj fs) :: rest, st, hfaith => by
    obtain ⟨inner, stA, hin, hfaithA, hcacheA, hcallsA⟩ :=
      tlV2_cache_dedup provider lang opts f hMR hp hf fs st hfaith
    obtain ⟨out2, st1, hrest, hfaith1, hcache1, hcalls1⟩ :=
      tlV2_cache_dedup provider lang opts f hMR hp hf rest stA hfaithA
    refine ⟨(k, .obj inner) :: out2, st1,
      tlV2_eq_obj_ok_ok provider lang opts k fs rest st stA st1 inner out2 hin hrest,
      hfaith1, ?_, ?_⟩
    · intro t
      rw [occursText_eq_obj, hcache1 t, hcacheA t]
      by_cases h1 : occursText t rest = true
      · rw [if_pos h1, if_pos (by rw [h1]; simp)]
      · rw [if_neg h1]
        by_cases h2 : occursText t fs = true
        · rw [if_pos h2, if_pos (by rw [h2]; simp)]
        · rw [if_neg h2, if_neg ?_]
          simp only [Bool.or_eq_true]
          rintro (h3 | h3)
          · exact h2 h3
          · exact h1 h3
    · intro s0
      rw [occursText_eq_obj, hcalls1 s0, hcallsA s0]
      by_cases h2 : occursText s0 fs = true
      · have hA : getCachedTranslation stA.cache s0 lang = some (f s0) := by
          rw [hcacheA s0, if_pos h2]
        have hifR : (if occursText s0 rest = true ∧
            getCachedTranslation stA.cache s0 lang = none then 1 else 0) = 0 := by
          rw [if_neg]
          rintro ⟨-, h3⟩
          rw [hA] at h3
          exact Option.noConfusion h3
        rw [hifR]
        by_cases h4 : getCachedTranslation st.cache s0 lang = none
        · rw [if_pos ⟨h2, h4⟩, if_pos ⟨by rw [h2]; simp, h4⟩]
        · have hif1 : (if occursText s0 fs = true ∧
              getCachedTranslation st.cache s0 lang = none then 1 else 0) = 0 := by
            rw [if_neg]
            rintro ⟨-, h3⟩
            exact h4 h3
          have hif2 : (if (occursText s0 fs || occursText s0 rest) = true ∧
              getCachedTranslation st.cache s0 lang = none then 1 else 0) = 0 := by
            rw [if_neg]
            rintro ⟨-, h3⟩
            exact h4 h3
          rw [hif1, hif2]
      · have hA : getCachedTranslation stA.cache s0 lang =
            getCachedTranslation st.cache s0 lang := by
          rw [hcacheA s0, if_neg h2]
        have hif1 : (if occursText s0 fs = true ∧
            getCachedTranslation st.cache s0 lang = none then 1 else 0) = 0 := by
          rw [if_neg]
          rintro ⟨h3, -⟩
          exact h2 h3
        rw [hif1, hA]
        have hiff : ((occursText s0 fs || occursText s0 rest) = true ∧
            getCachedTranslation st.cache s0 lang = none) ↔
            (occursText s0 rest = true ∧
             getCachedTranslation st.cache s0 lang = none) := by
          constructor
          · rintro ⟨h3, h4⟩
            simp only [Bool.or_eq_true] at h3
            rcases h3 with h3 | h3
            · exact absurd h3 h2
            · exact ⟨h3, h4⟩
          · rintro ⟨h3, h4⟩
            exact ⟨by rw [h3]; simp, h4⟩
        rw [if_congr hiff rfl rfl]
        omega
  | (k, .null) :: rest, st, hfaith => by
    obtain ⟨out2, st1, hrest, hfaith1, hcache1, hcalls1⟩ :=
      tlV2_cache_dedup provider lang opts f hMR hp hf rest st hfaith
    refine ⟨(k, .str "") :: out2, st1,
      tlV2_eq_null_ok provider lang opts k rest st st1 out2 hrest, hfaith1, ?_, ?_⟩
    · intro t
      rw [occursText_eq_scalar t k .null rest (by simp [JVal.isNonStringScalar])]
      exact hcache1 t
    · intro s0
      rw [occursText_eq_scalar s0 k .null rest (by simp [JVal.isNonStringScalar])]
      exact hcalls1 s0
  | (k, .undef) :: rest, st, hfaith => by
    obtain ⟨out2, st1, hrest, hfaith1, hcache1, hcalls1⟩ :=
      tlV2_cache_dedup provider lang opts f hMR hp hf rest st hfaith
    refine ⟨(k, .str "") :: out2, st1,
      tlV2_eq_undef_ok provider lang opts k rest st st1 out2 hrest, hfaith1, ?_, ?_⟩
    · intro t
      rw [occursText_eq_scalar t k .undef rest (by simp [JVal.isNonStringScalar])]
      exact hcache1 t
    · intro s0
      rw [occursText_eq_scalar s0 k .undef rest (by simp [JVal.isNonStringScalar])]
      exact hcalls1 s0
  | (k, .num n) :: rest, st, hfaith => by
    obtain ⟨out2, st1, hrest, hfaith1, hcache1, hcalls1⟩ :=
      tlV2_cache_dedup provider lang opts f hMR hp hf rest st hfaith
    refine ⟨(k, .str (jsString (.num n))) :: out2, st1,
      tlV2_eq_num_ok provider lang opts k n rest st st1 out2 hrest, hfaith1, ?_, ?_⟩
    · intro t
      rw [occursText_eq_scalar t k (.num n) rest (by simp [JVal.isNonStringScalar])]
      exact hcache1 t
    · intro s0
      rw [occursText_eq_scalar s0 k (.num n) rest (by simp [JVal.isNonStringScalar])]
      exact hcalls1 s0
  | (k, .bool b) :: rest, st, hfaith => by
    obtain ⟨out2, st1, hrest, hfaith1, hcache1, hcalls1⟩ :=
      tlV2_cache_dedup provider lang opts f hMR hp hf rest st hfaith
    refine ⟨(k, .str (jsString (.bool b))) :: out2, st1,
      tlV2_eq_bool_ok provider lang opts k b rest st st1 out2 hrest, hfaith1, ?_, ?_⟩
    · intro t
      rw [occursText_eq_scalar t k (.bool b) rest (by simp [JVal.isNonStringScalar])]
      exact hcache1 t
    · intro s0
      rw [occursText_eq_scalar s0 k (.bool b) rest (by simp [JVal.isNonStringScalar])]
      exact hcalls1 s0

/-- C3: in a cached sequential language run (the deterministic semantics of
`maxWorkers = 1`) over any document, the provider is invoked exactly once
for a source text that occurs among the string leaves of the document, however
many leaf positions repeat it — and never for a text that does not occur:
the first resolution populates the cache and every later occurrence is a
cache hit without a provider call.  In particular the provider call count
for a text occurring at `k ≥ 1` leaves is `1 ≤ k`. -/
theorem cache_dedup_per_language (provider : String → String → Nat → Except String JVal)
    (lang : String) (opts : TOptions) (f : String → String)
    (doc : List (String × JVal)) (s : String)
    (hMR : 1 ≤ opts.maxRetries)
    (hp : ∀ t, attemptOutcome (provider t lang 1) = .ok (f t))
    (hf : ∀ t, f t ≠ "") :
    ∃ out st1,
      translateLanguageV2 provider lang opts doc emptyPState = (.ok out, st1) ∧
      callsFor s lang st1.callLog = (if occursText s doc = true then 1 else 0) := by
  obtain ⟨out, st1, h1, -, -, hcalls⟩ :=
    tlV2_cache_dedup provider lang opts f hMR hp hf doc emptyPState
      (cacheFaithful_empty f lang)
  refine ⟨out, st1, h1, ?_⟩
  rw [hcalls s]
  have h0 : callsFor s lang emptyPState.callLog = 0 := rfl
  have hnone : getCachedTranslation emptyPState.cache s lang = none := rfl
  rw [h0]
  by_cases ho : occursText s doc = true
  · rw [if_pos ⟨ho, hnone⟩, if_pos ho]
  · rw [if_neg (by rintro ⟨h3, -⟩; exact ho h3), if_neg ho]

/-- Witness for C3: five leaves all holding `你好`, target `en`: the run
succeeds and the provider is invoked exactly once for `你好`. -/
theorem cache_dedup_per_language_witness :
    ∃ out st1,
      translateLanguageV2 (fun _ _ _ => .ok (.str "Hello")) "en" DEFAULT_OPTIONS
        [("k1", JVal.str "你好"), ("k2", JVal.str "你好"), ("k3", JVal.str "你好"),
         ("k4", JVal.str "你好"), ("k5", JVal.str "你好")] emptyPState = (.ok out, st1) ∧
      callsFor "你好" "en" st1.callLog = 1 := by
  obtain ⟨out, st1, h1, h2⟩ := cache_dedup_per_language
    (fun _ _ _ => .ok (.str "Hello")) "en" DEFAULT_OPTIONS (fun _ => "Hello")
    [("k1", JVal.str "你好"), ("k2", JVal.str "你好"), ("k3", JVal.str "你好"),
     ("k4", JVal.str "你好"), ("k5", JVal.str "你好")] "你好"
    (by decide) (fun t => rfl) (fun t => by simp)
  refine ⟨out, st1, h1, ?_⟩
  rw [h2, if_pos ?_]
  rw [occursText_eq_str]
  simp

theorem bounded_eq (W : Nat) (q : List JVal) (c l : Nat) (subs : List RunState) :
    RunState.bounded W (.mk q c l subs) =
      (decide (c + l + subs.length ≤ W) && boundedList W subs) := by
  simp [RunState.bounded]

theorem boundedList_nil (W : Nat) : boundedList W [] = true := by
  simp [boundedList]

theorem boundedList_cons (W : Nat) (r : RunState) (rs : List RunState) :
    boundedList W (r :: rs) = (r.bounded W && boundedList W rs) := by
  simp [boundedList]

theorem boundedList_append (W : Nat) (l1 l2 : List RunState) :
    boundedList W (l1 ++ l2) = (boundedList W l1 && boundedList W l2) := by
  induction l1 with
  | nil => simp [boundedList_nil]
  | cons r rs ih => rw [List.cons_append, boundedList_cons, boundedList_cons, ih,
      Bool.and_assoc]

theorem inFlight_eq (q : List JVal) (c l : Nat) (subs : List RunState) :
    inFlight (.mk q c l subs) = c + inFlightList subs := by
  simp [inFlight]

theorem inFlightList_nil : inFlightList [] = 0 := by
  simp [inFlightList]

theorem inFlightList_cons (r : RunState) (rs : List RunState) :
    inFlightList (r :: rs) = inFlight r + inFlightList rs := by
  simp [inFlightList]

/-- One scheduling step keeps every pool of the run tree within the
`maxWorkers` ceiling: a task is started only while `inProgress.size < W`. -/
theorem schedStep_preserves_bounded {W : Nat} {s s2 : RunState}
    (h : SchedStep W s s2) (hb : s.bounded W = true) : s2.bounded W = true := by
  induction h with
  | startStr s q c l subs hlt =>
    rw [bounded_eq] at hb ⊢
    simp only [Bool.and_eq_true, decide_eq_true_eq] at hb ⊢
    exact ⟨by omega, hb.2⟩
  | startObj fs q c l subs hlt =>
    rw [bounded_eq] at hb ⊢
    simp only [Bool.and_eq_true, decide_eq_true_eq] at hb ⊢
    constructor
    · simp only [List.length_cons]
      omega
    · rw [boundedList_cons]
      simp only [Bool.and_eq_true]
      refine ⟨?_, hb.2⟩
      rw [show initRun (fs.map Prod.snd) = .mk (fs.map Prod.snd) 0 0 [] from rfl,
        bounded_eq]
      simp [boundedList_nil]
  | startScalar v q c l subs hv hlt =>
    rw [bounded_eq] at hb ⊢
    simp only [Bool.and_eq_true, decide_eq_true_eq] at hb ⊢
    exact ⟨by omega, hb.2⟩
  | finishCall q c l subs =>
    rw [bounded_eq] at hb ⊢
    simp only [Bool.and_eq_true, decide_eq_true_eq] at hb ⊢
    exact ⟨by omega, hb.2⟩
  | finishScalar q c l subs =>
    rw [bounded_eq] at hb ⊢
    simp only [Bool.and_eq_true, decide_eq_true_eq] at hb ⊢
    exact ⟨by omega, hb.2⟩
  | finishSub q c l s1 s2 r hr =>
    rw [bounded_eq] at hb ⊢
    simp only [Bool.and_eq_true, decide_eq_true_eq] at hb ⊢
    obtain ⟨hlen, hlist⟩ := hb
    rw [boundedList_append, boundedList_cons] at hlist
    simp only [Bool.and_eq_true] at hlist
    constructor
    · simp only [List.length_append, List.length_cons] at hlen ⊢
      omega
    · rw [boundedList_append]
      simp only [Bool.and_eq_true]
      exact ⟨hlist.1, hlist.2.2⟩
  | stepSub q c l s1 s2 r r2 hstep ih =>
    rw [bounded_eq] at hb ⊢
    simp only [Bool.and_eq_true, decide_eq_true_eq] at hb ⊢
    obtain ⟨hlen, hlist⟩ := hb
    rw [boundedList_append, boundedList_cons] at hlist
    simp only [Bool.and_eq_true] at hlist
    constructor
    · simp only [List.length_append, List.length_cons] at hlen ⊢
      omega
    · rw [boundedList_append, boundedList_cons]
      simp only [Bool.and_eq_true]
      exact ⟨hlist.1, ih hlist.2.1, hlist.2.2⟩

/-- The ceiling invariant holds at every reachable state. -/
theorem schedReach_preserves_bounded {W : Nat} {s0 s : RunState}
    (h : SchedReach W s0 s) (hb : s0.bounded W = true) : s.bounded W = true := by
  induction h with
  | refl => exact hb
  | tail h1 hstep ih => exact schedStep_preserves_bounded hstep ih

/-- The queue contains no nested objects. -/
def noObjQueue (q : List JVal) : Bool :=
  q.all (fun v => !v.isObj)

/-- A flat run: no nested object pending and no sub-run active. -/
def flatState : RunState → Bool
  | .mk q _ _ subs => noObjQueue q && subs.isEmpty

theorem flatState_eq (q : List JVal) (c l : Nat) (subs : List RunState) :
    flatState (.mk q c l subs) = (noObjQueue q && subs.isEmpty) := by
  simp [flatState]

/-- Steps preserve flatness: with no object values in the queue, no
sub-run is ever spawned. -/
theorem schedStep_preserves_flat {W : Nat} {s s2 : RunState}
    (h : SchedStep W s s2) (hf : flatState s = true) : flatState s2 = true := by
  induction h with
  | startStr s q c l subs hlt =>
    rw [flatState_eq] at hf ⊢
    simp only [Bool.and_eq_true, noObjQueue, List.all_cons, Bool.and_eq_true] at hf ⊢
    exact ⟨hf.1.2, hf.2⟩
  | startObj fs q c l subs hlt =>
    rw [flatState_eq] at hf
    simp only [Bool.and_eq_true, noObjQueue, List.all_cons, Bool.and_eq_true] at hf
    exact absurd hf.1.1 (by simp [JVal.isObj])
  | startScalar v q c l subs hv hlt =>
    rw [flatState_eq] at hf ⊢
    simp only [Bool.and_eq_true, noObjQueue, List.all_cons, Bool.and_eq_true] at hf ⊢
    exact ⟨hf.1.2, hf.2⟩
  | finishCall q c l subs =>
    rw [flatState_eq] at hf ⊢
    exact hf
  | finishScalar q c l subs =>
    rw [flatState_eq] at hf ⊢
    exact hf
  | finishSub q c l s1 s2 r hr =>
    rw [flatState_eq] at hf
    simp only [Bool.and_eq_true, List.isEmpty_eq_true] at hf
    exact absurd hf.2 (by simp)
  | stepSub q c l s1 s2 r r2 hstep ih =>
    rw [flatState_eq] at hf
    simp only [Bool.and_eq_true, List.isEmpty_eq_true] at hf
    exact absurd hf.2 (by simp)

theorem schedReach_preserves_flat {W : Nat} {s0 s : RunState}
    (h : SchedReach W s0 s) (hf : flatState s0 = true) : flatState s = true := by
  induction h with
  | refl => exact hf
  | tail h1 hstep ih => exact schedStep_preserves_flat hstep ih

/-- The nested document `{"b": {"c": "y", "d": "z"}, "e": {"f": "w", "g": "v"}}`
used to exhibit nested-pool concurrency. -/
def c5doc : List (String × JVal) :=
  [("b", .obj [("c", .str "y"), ("d", .str "z")]),
   ("e", .obj [("f", .str "w"), ("g", .str "v")])]

/-- C5 counterexample: with `maxWorkers = 2` and the nested document
`c5doc`, the scheduler can reach a state with 4 provider calls
simultaneously in flight — each recursive `translateLanguage` invocation
spawned for a sub-object runs its own pool of up to `maxWorkers` tasks, so
the ceiling is not global. -/
theorem maxWorkers_bound_counterexample :
    ∃ s : RunState, SchedReach 2 (initRunDoc c5doc) s ∧ 2 < inFlight s := by
  refine ⟨.mk [] 0 0 [.mk [] 2 0 [], .mk [] 2 0 []], ?_, ?_⟩
  · have h1 : SchedStep 2 (initRunDoc c5doc)
        (.mk [JVal.obj [("f", .str "w"), ("g", .str "v")]] 0 0
          [.mk [JVal.str "y", JVal.str "z"] 0 0 []]) :=
      SchedStep.startObj [("c", .str "y"), ("d", .str "z")]
        [JVal.obj [("f", .str "w"), ("g", .str "v")]] 0 0 [] (by simp)
    have h2 : SchedStep 2
        (.mk [JVal.obj [("f", .str "w"), ("g", .str "v")]] 0 0
          [.mk [JVal.str "y", JVal.str "z"] 0 0 []])
        (.mk [] 0 0 [.mk [JVal.str "w", JVal.str "v"] 0 0 [],
          .mk [JVal.str "y", JVal.str "z"] 0 0 []]) :=
      SchedStep.startObj [("f", .str "w"), ("g", .str "v")] [] 0 0
        [.mk [JVal.str "y", JVal.str "z"] 0 0 []] (by simp)
    have h3 : SchedStep 2
        (.mk [] 0 0 [.mk [JVal.str "w", JVal.str "v"] 0 0 [],
          .mk [JVal.str "y", JVal.str "z"] 0 0 []])
        (.mk [] 0 0 [.mk [JVal.str "w", JVal.str "v"] 0 0 [],
          .mk [JVal.str "z"] 1 0 []]) :=
      SchedStep.stepSub [] 0 0 [.mk [JVal.str "w", JVal.str "v"] 0 0 []] []
        (.mk [JVal.str "y", JVal.str "z"] 0 0 []) (.mk [JVal.str "z"] 1 0 [])
        (SchedStep.startStr "y" [JVal.str "z"] 0 0 [] (by simp))
    have h4 : SchedStep 2
        (.mk [] 0 0 [.mk [JVal.str "w", JVal.str "v"] 0 0 [],
          .mk [JVal.str "z"] 1 0 []])
        (.mk [] 0 0 [.mk [JVal.str "w", JVal.str "v"] 0 0 [],
          .mk [] 2 0 []]) :=
      SchedStep.stepSub [] 0 0 [.mk [JVal.str "w", JVal.str "v"] 0 0 []] []
        (.mk [JVal.str "z"] 1 0 []) (.mk [] 2 0 [])
        (SchedStep.startStr "z" [] 1 0 [] (by simp))
    have h5 : SchedStep 2
        (.mk [] 0 0 [.mk [JVal.str "w", JVal.str "v"] 0 0 [],
          .mk [] 2 0 []])
        (.mk [] 0 0 [.mk [JVal.str "v"] 1 0 [],
          .mk [] 2 0 []]) :=
      SchedStep.stepSub [] 0 0 [] [.mk [] 2 0 []]
        (.mk [JVal.str "w", JVal.str "v"] 0 0 []) (.mk [JVal.str "v"] 1 0 [])
        (SchedStep.startStr "w" [JVal.str "v"] 0 0 [] (by simp))
    have h6 : SchedStep 2
        (.mk [] 0 0 [.mk [JVal.str "v"] 1 0 [],
          .mk [] 2 0 []])
        (.mk [] 0 0 [.mk [] 2 0 [],
          .mk [] 2 0 []]) :=
      SchedStep.stepSub [] 0 0 [] [.mk [] 2 0 []]
        (.mk [JVal.str "v"] 1 0 []) (.mk [] 2 0 [])
        (SchedStep.startStr "v" [] 1 0 [] (by simp))
    exact .head h1 (.head h2 (.head h3 (.head h4 (.head h5 (.head h6 .refl)))))
  · simp [inFlight_eq, inFlightList_cons, inFlightList_nil]

/-- C5 (amended): the `maxWorkers` ceiling is per worker pool, not global:
at every state reachable during a language run, every active
`translateLanguage` pool (the root and each recursive sub-run spawned for a
nested object) has at most `maxWorkers` tasks in progress; consequently,
for a document without nested sub-objects, the number of simultaneously
in-flight provider calls never exceeds `maxWorkers` — while with nested
sub-objects the global count can exceed it (each active pool may carry up
to `maxWorkers` calls of its own). -/
theorem maxWorkers_bound_amended (W : Nat) (doc : List (String × JVal))
    (s : RunState) (h : SchedReach W (initRunDoc doc) s) :
    s.bounded W = true ∧
    (noObjQueue (doc.map Prod.snd) = true → inFlight s ≤ W) := by
  have hb0 : (initRunDoc doc).bounded W = true := by
    rw [show initRunDoc doc = .mk (doc.map Prod.snd) 0 0 [] from rfl, bounded_eq]
    simp [boundedList_nil]
  have hb := schedReach_preserves_bounded h hb0
  refine ⟨hb, ?_⟩
  intro hflat
  have hf0 : flatState (initRunDoc doc) = true := by
    rw [show initRunDoc doc = .mk (doc.map Prod.snd) 0 0 [] from rfl, flatState_eq]
    simp [hflat]
  have hf := schedReach_preserves_flat h hf0
  cases s with
  | mk q c l subs =>
    rw [flatState_eq] at hf
    simp only [Bool.and_eq_true, List.isEmpty_eq_true] at hf
    rw [bounded_eq] at hb
    simp only [Bool.and_eq_true, decide_eq_true_eq] at hb
    rw [inFlight_eq, hf.2, inFlightList_nil]
    have := hb.1
    omega

/-- Witness for the amended C5: the flat document `{"a": "x", "b": "y"}`
with `maxWorkers = 1`, at the initial state. -/
theorem maxWorkers_bound_amended_witness :
    (initRunDoc [("a", JVal.str "x"), ("b", JVal.str "y")]).bounded 1 = true ∧
    inFlight (initRunDoc [("a", JVal.str "x"), ("b", JVal.str "y")]) ≤ 1 := by
  have h := maxWorkers_bound_amended 1 [("a", JVal.str "x"), ("b", JVal.str "y")]
    (initRunDoc [("a", JVal.str "x"), ("b", JVal.str "y")]) Relation.ReflTransGen.refl
  exact ⟨h.1, h.2 (by decide)⟩

end I18nJson
